import Mathlib

/-!
Inversi (reverse Othello): rule engine and turn controller.

Shallow embedding of `src/inversi-script.js` (class `ReverseOthello`).

* The board is the JavaScript array of arrays `this.board`; cells hold the
  numbers `EMPTY = 0`, `BLACK = 1`, `WHITE = 2`.
* Coordinates are integers (the code adds the direction vectors, whose
  components may be `-1`, to them).
* Every array access is checked: an access outside the arrays is the error
  `Err.outOfRange` (JavaScript would raise a `TypeError` on a missing row and
  yield `undefined` on a missing column).
* The `while` loop of `canFlipInDirection` is run with a step budget; an
  exhausted budget is the error `Err.fuel`.
* The random index `Math.floor(Math.random() * length)` is a parameter
  `randomIndex : Nat → Int` of the methods that draw one. The product is a
  double-precision one, so no formula in the draw is assumed for it; what the
  runtime promises is stated as `InRange`.
* DOM rendering (`updateDisplay`, status texts, button states) and timers do
  not touch the game fields and are left out.
-/

namespace Inversi

/-! ## Data model -/

/-- Ways in which an engine operation can fail in the embedding. -/
inductive Err where
  | outOfRange
  | fuel
  | typeError
  deriving DecidableEq, Repr

deriving instance DecidableEq for Except

/-- The board: `this.board`, an array of rows, each an array of cell values. -/
abbrev Board := List (List Nat)

/-- The constant `this.BOARD_SIZE`. -/
def BOARD_SIZE : Nat := 8
/-- The constant `this.EMPTY`. -/
def EMPTY : Nat := 0
/-- The constant `this.BLACK`. -/
def BLACK : Nat := 1
/-- The constant `this.WHITE`. -/
def WHITE : Nat := 2

/-- The constant `this.DIRECTIONS`: up, up-right, right, down-right, down,
down-left, left, up-left. -/
def DIRECTIONS : List (Int × Int) :=
  [(-1, 0), (-1, 1), (0, 1), (1, 1), (1, 0), (1, -1), (0, -1), (-1, -1)]

/-- The mutable fields of a `ReverseOthello` object. -/
structure ReverseOthello where
  board : Board
  currentPlayer : Nat
  gameEnded : Bool
  consecutivePasses : Nat
  isAIMode : Bool
  isAIThinking : Bool
  deriving DecidableEq, Repr

/-- A board is well formed when it has `BOARD_SIZE` rows of `BOARD_SIZE` cells. -/
def WellFormed (b : Board) : Prop :=
  b.length = BOARD_SIZE ∧ ∀ r ∈ b, r.length = BOARD_SIZE

instance (b : Board) : Decidable (WellFormed b) := by
  unfold WellFormed; infer_instance

/-- The read `this.board[r][c]`, checked. -/
def readCell (b : Board) (r c : Int) : Except Err Nat :=
  if 0 ≤ r ∧ 0 ≤ c then
    match b[r.toNat]? with
    | none => .error .outOfRange
    | some cells =>
      match cells[c.toNat]? with
      | none => .error .outOfRange
      | some v => .ok v
  else .error .outOfRange

/-- The write `this.board[r][c] = v`, checked. -/
def writeCell (b : Board) (r c : Int) (v : Nat) : Except Err Board :=
  if 0 ≤ r ∧ 0 ≤ c then
    match b[r.toNat]? with
    | none => .error .outOfRange
    | some cells =>
      if c.toNat < cells.length then .ok (b.set r.toNat (cells.set c.toNat v))
      else .error .outOfRange
  else .error .outOfRange

/-! ## Rule engine -/

/-- The method `isInBounds(row, col)`. -/
def isInBounds (row col : Int) : Bool :=
  decide (row ≥ 0) && decide (row < BOARD_SIZE) && decide (col ≥ 0) && decide (col < BOARD_SIZE)

/-- The `for` loop of `isAdjacentToExistingPiece` over the remaining directions. -/
def isAdjacentLoop (b : Board) (row col : Int) : List (Int × Int) → Except Err Bool
  | [] => .ok false
  | (dr, dc) :: rest =>
    let newRow := row + dr
    let newCol := col + dc
    if isInBounds newRow newCol then
      match readCell b newRow newCol with
      | .error e => .error e
      | .ok v => if v ≠ EMPTY then .ok true else isAdjacentLoop b row col rest
    else isAdjacentLoop b row col rest

/-- The method `isAdjacentToExistingPiece(row, col)`. -/
def isAdjacentToExistingPiece (g : ReverseOthello) (row col : Int) : Except Err Bool :=
  isAdjacentLoop g.board row col DIRECTIONS

/-- The `while` loop of `canFlipInDirection`, with a step budget: the state is
`(r, c, hasOpponentPieces)`. -/
def flipWalk (b : Board) (opponent : Nat) (dr dc : Int) :
    Nat → Int → Int → Bool → Except Err (Int × Int × Bool)
  | 0, _, _, _ => .error .fuel
  | fuel + 1, r, c, hasOpponentPieces =>
    if isInBounds r c then
      match readCell b r c with
      | .error e => .error e
      | .ok v =>
        if v = opponent then flipWalk b opponent dr dc fuel (r + dr) (c + dc) true
        else .ok (r, c, hasOpponentPieces)
    else .ok (r, c, hasOpponentPieces)

/-- The method `canFlipInDirection(row, col, dr, dc, player)`. The loop gets a
budget of `BOARD_SIZE` condition checks. -/
def canFlipInDirection (g : ReverseOthello) (row col dr dc : Int) (player : Nat) :
    Except Err Bool :=
  let opponent := if player = BLACK then WHITE else BLACK
  let r := row + dr
  let c := col + dc
  if !isInBounds r c then .ok false
  else
    match readCell g.board r c with
    | .error e => .error e
    | .ok v =>
      if v ≠ opponent then .ok false
      else
        match flipWalk g.board opponent dr dc BOARD_SIZE r c false with
        | .error e => .error e
        | .ok (r1, c1, hasOpponentPieces) =>
          if hasOpponentPieces && isInBounds r1 c1 then
            match readCell g.board r1 c1 with
            | .error e => .error e
            | .ok w => .ok (decide (w = player))
          else .ok false

/-- The `for` loop of `wouldFlipPieces` over the remaining directions. -/
def wouldFlipLoop (g : ReverseOthello) (row col : Int) (player : Nat) :
    List (Int × Int) → Except Err Bool
  | [] => .ok false
  | (dr, dc) :: rest =>
    match canFlipInDirection g row col dr dc player with
    | .error e => .error e
    | .ok true => .ok true
    | .ok false => wouldFlipLoop g row col player rest

/-- The method `wouldFlipPieces(row, col, player)`. -/
def wouldFlipPieces (g : ReverseOthello) (row col : Int) (player : Nat) : Except Err Bool :=
  wouldFlipLoop g row col player DIRECTIONS

/-- The method `isValidMove(row, col)`; the player is `this.currentPlayer`. -/
def isValidMove (g : ReverseOthello) (row col : Int) : Except Err Bool :=
  match readCell g.board row col with
  | .error e => .error e
  | .ok v =>
    if v ≠ EMPTY then .ok false
    else
      match isAdjacentToExistingPiece g row col with
      | .error e => .error e
      | .ok false => .ok false
      | .ok true =>
        match wouldFlipPieces g row col g.currentPlayer with
        | .error e => .error e
        | .ok true => .ok false
        | .ok false => .ok true

/-- The inner `for` loop of `getValidMoves` (columns of one row); `validMoves`
is the array built so far. -/
def getValidMovesCols (g : ReverseOthello) (player : Nat) (row : Int) :
    List Int → List (Int × Int) → Except Err (List (Int × Int))
  | [], validMoves => .ok validMoves
  | col :: cols, validMoves =>
    match readCell g.board row col with
    | .error e => .error e
    | .ok v =>
      if v = EMPTY then
        match isAdjacentToExistingPiece g row col with
        | .error e => .error e
        | .ok false => getValidMovesCols g player row cols validMoves
        | .ok true =>
          match wouldFlipPieces g row col player with
          | .error e => .error e
          | .ok true => getValidMovesCols g player row cols validMoves
          | .ok false => getValidMovesCols g player row cols (validMoves ++ [(row, col)])
      else getValidMovesCols g player row cols validMoves

/-- The outer `for` loop of `getValidMoves` (rows). -/
def getValidMovesRows (g : ReverseOthello) (player : Nat) :
    List Int → List (Int × Int) → Except Err (List (Int × Int))
  | [], validMoves => .ok validMoves
  | row :: rows, validMoves =>
    match getValidMovesCols g player row ((List.range BOARD_SIZE).map Int.ofNat) validMoves with
    | .error e => .error e
    | .ok validMoves1 => getValidMovesRows g player rows validMoves1

/-- The method `getValidMoves(player)`. -/
def getValidMoves (g : ReverseOthello) (player : Nat) : Except Err (List (Int × Int)) :=
  getValidMovesRows g player ((List.range BOARD_SIZE).map Int.ofNat) []

/-! ## Turn controller -/

/-- The method `initializeBoard()`. -/
def initializeBoard (g : ReverseOthello) : ReverseOthello :=
  let empty : Board := List.replicate BOARD_SIZE (List.replicate BOARD_SIZE EMPTY)
  let center : Nat := BOARD_SIZE / 2
  let setCell (b : Board) (r c v : Nat) : Board := b.set r ((b.getD r []).set c v)
  let b1 := setCell empty (center - 1) (center - 1) WHITE
  let b2 := setCell b1 (center - 1) center BLACK
  let b3 := setCell b2 center (center - 1) BLACK
  let b4 := setCell b3 center center WHITE
  { g with board := b4, currentPlayer := BLACK, gameEnded := false, consecutivePasses := 0 }

/-- The method `makeMove(row, col)`. -/
def makeMove (g : ReverseOthello) (row col : Int) : Except Err ReverseOthello :=
  match writeCell g.board row col g.currentPlayer with
  | .error e => .error e
  | .ok b => .ok { g with board := b, consecutivePasses := 0 }

/-- The method `switchPlayer()`. -/
def switchPlayer (g : ReverseOthello) : ReverseOthello :=
  { g with currentPlayer := if g.currentPlayer = BLACK then WHITE else BLACK }

/-- The loop of `countPieces()` over the cells of one row; the state is
`(blackCount, whiteCount)`. -/
def countPiecesCols (g : ReverseOthello) (row : Int) :
    List Int → Nat × Nat → Except Err (Nat × Nat)
  | [], counts => .ok counts
  | col :: cols, (blackCount, whiteCount) =>
    match readCell g.board row col with
    | .error e => .error e
    | .ok v =>
      if v = BLACK then countPiecesCols g row cols (blackCount + 1, whiteCount)
      else if v = WHITE then countPiecesCols g row cols (blackCount, whiteCount + 1)
      else countPiecesCols g row cols (blackCount, whiteCount)

/-- The loop of `countPieces()` over the rows. -/
def countPiecesRows (g : ReverseOthello) : List Int → Nat × Nat → Except Err (Nat × Nat)
  | [], counts => .ok counts
  | row :: rows, counts =>
    match countPiecesCols g row ((List.range BOARD_SIZE).map Int.ofNat) counts with
    | .error e => .error e
    | .ok counts1 => countPiecesRows g rows counts1

/-- The method `countPieces()`: the pair `(black, white)`. -/
def countPieces (g : ReverseOthello) : Except Err (Nat × Nat) :=
  countPiecesRows g ((List.range BOARD_SIZE).map Int.ofNat) (0, 0)

/-- The method `endGame()`: of the game fields it sets `gameEnded` only (the
piece counts it takes feed the status message). -/
def endGame (g : ReverseOthello) : ReverseOthello :=
  { g with gameEnded := true }

/-- The method `checkGameEnd()`. -/
def checkGameEnd (g : ReverseOthello) : Except Err ReverseOthello :=
  match getValidMoves g g.currentPlayer with
  | .error e => .error e
  | .ok validMoves =>
    let hasValidMoves := decide (validMoves.length > 0)
    if !hasValidMoves then
      let g1 := { g with consecutivePasses := g.consecutivePasses + 1 }
      if g1.consecutivePasses ≥ 2 then .ok (endGame g1)
      else
        let g2 := switchPlayer g1
        match getValidMoves g2 g2.currentPlayer with
        | .error e => .error e
        | .ok opponentValidMoves =>
          if opponentValidMoves.length = 0 then .ok (endGame g2)
          else .ok g2
    else .ok g

/-- The method `handleCellClick(row, col)`, up to the scheduling of the
automated turn. -/
def handleCellClick (g : ReverseOthello) (row col : Int) : Except Err ReverseOthello :=
  if g.gameEnded || g.isAIThinking then .ok g
  else if g.isAIMode && decide (g.currentPlayer = WHITE) then .ok g
  else
    match isValidMove g row col with
    | .error e => .error e
    | .ok false => .ok g
    | .ok true =>
      match makeMove g row col with
      | .error e => .error e
      | .ok g1 => checkGameEnd (switchPlayer g1)

/-- The method `passMove()`, up to the scheduling of the automated turn. -/
def passMove (g : ReverseOthello) : Except Err ReverseOthello :=
  if g.gameEnded then .ok g
  else
    checkGameEnd (switchPlayer { g with consecutivePasses := g.consecutivePasses + 1 })

/-- The method `resetGame()`. -/
def resetGame (g : ReverseOthello) : ReverseOthello :=
  initializeBoard g

/-- The constructor `new ReverseOthello(isAIMode)`. -/
def newGame (isAIMode : Bool) : ReverseOthello :=
  initializeBoard
    { board := [], currentPlayer := BLACK, gameEnded := false, consecutivePasses := 0,
      isAIMode := isAIMode, isAIThinking := false }

/-! ## Opponent policy -/

/-- What the move-selecting methods return: `null`, `undefined` (an array read
past the end) or a pair `[row, col]`. -/
inductive MoveValue where
  | null
  | undefined
  | move (row col : Int)
  deriving DecidableEq, Repr

/-- What `parseAIResponse` is handed: a text, the pair or the `null` that
`getHeuristicMove` returned. -/
inductive Response where
  | text (s : String)
  | move (row col : Int)
  | null
  deriving DecidableEq, Repr

/-- The random source: `randomIndex length` is the value that the expression
`Math.floor(Math.random() * length)` takes in the call at hand. -/
abbrev RandomSource := Nat → Int

/-- What the runtime promises of the random index: `Math.random()` is a double
in `[0, 1)`, and for an array length `n ≥ 1` the double product with `n` is at
least 0 and rounds to a value below `n`, so that its floor is an index of the
array. -/
def InRange (randomIndex : RandomSource) : Prop :=
  ∀ n : Nat, 0 < n → 0 ≤ randomIndex n ∧ randomIndex n < (n : Int)

/-- The random source when `Math.random()` returns 0.5: the product `0.5 * n`
is exact in double precision, and its floor is `n` divided by 2, rounded down. -/
def halfDraw : RandomSource := fun n => ((n / 2 : Nat) : Int)

/-- The array read `moves[i]`. -/
def moveAt (moves : List (Int × Int)) (i : Int) : MoveValue :=
  if 0 ≤ i then
    match moves[i.toNat]? with
    | none => .undefined
    | some (row, col) => .move row col
  else .undefined

/-- The filter of `getHeuristicMove` for corners. -/
def isCorner (m : Int × Int) : Bool :=
  (decide (m.1 = 0) || decide (m.1 = 7)) && (decide (m.2 = 0) || decide (m.2 = 7))

/-- The filter of `getHeuristicMove` for edges. -/
def isEdge (m : Int × Int) : Bool :=
  decide (m.1 = 0) || decide (m.1 = 7) || decide (m.2 = 0) || decide (m.2 = 7)

/-- The body of `getHeuristicMove()` once `validMoves` is computed. -/
def heuristicChoice (validMoves : List (Int × Int)) (randomIndex : RandomSource) :
    MoveValue :=
  if validMoves.length = 0 then .null
  else
    let corners := validMoves.filter isCorner
    if corners.length > 0 then moveAt corners 0
    else
      let edges := validMoves.filter isEdge
      if edges.length > 0 then moveAt edges 0
      else moveAt validMoves (randomIndex validMoves.length)

/-- The method `getHeuristicMove()`. -/
def getHeuristicMove (g : ReverseOthello) (randomIndex : RandomSource) :
    Except Err MoveValue :=
  match getValidMoves g WHITE with
  | .error e => .error e
  | .ok validMoves => .ok (heuristicChoice validMoves randomIndex)

/-- The character class `[A-H]` under the flag `i`. -/
def isColLetter (ch : Char) : Bool :=
  (decide ('A' ≤ ch) && decide (ch ≤ 'H')) || (decide ('a' ≤ ch) && decide (ch ≤ 'h'))

/-- The character class `[1-8]`. -/
def isRowDigit (ch : Char) : Bool :=
  decide ('1' ≤ ch) && decide (ch ≤ '8')

/-- The call `response.match(/([A-H])([1-8])/i)`: the two groups of the
leftmost match. -/
def matchCoordinate : List Char → Option (Char × Char)
  | [] => none
  | [_] => none
  | a :: b :: rest =>
    if isColLetter a && isRowDigit b then some (a, b) else matchCoordinate (b :: rest)

/-- The method `generateValidMovesText(validMoves)`. -/
def generateValidMovesText (validMoves : List (Int × Int)) : String :=
  if validMoves.length = 0 then "有効な手: なし"
  else
    let moveStrings := validMoves.map fun (row, col) =>
      let colLetter := String.singleton (Char.ofNat (65 + col).toNat)
      let rowNumber := row + 1
      colLetter ++ toString rowNumber
    "有効な手: " ++ ", ".intercalate moveStrings

/-- The method `parseAIResponse(response, validMoves)`. -/
def parseAIResponse (response : Response) (validMoves : List (Int × Int))
    (randomIndex : RandomSource) : Except Err MoveValue :=
  match response with
  | .null => .error .typeError
  | .move row col => .ok (.move row col)
  | .text s =>
    let fallback := moveAt validMoves (randomIndex validMoves.length)
    match matchCoordinate s.data with
    | none => .ok fallback
    | some (letter, digit) =>
      let col : Int := (letter.toUpper.toNat : Int) - 65
      let row : Int := ((digit.toNat : Int) - 48) - 1
      let isValid := validMoves.any fun (r, c) => decide (r = row) && decide (c = col)
      if isValid then .ok (.move row col) else .ok fallback

/-! ## Specification vocabulary -/

/-- The colour that `canFlipInDirection` treats as the opponent of `player`. -/
def opponentOf (player : Nat) : Nat := if player = BLACK then WHITE else BLACK

/-- Some one of the eight neighbours of `(row, col)` is on the board and not empty. -/
def AdjacentToOccupied (b : Board) (row col : Int) : Prop :=
  ∃ d ∈ DIRECTIONS, isInBounds (row + d.1) (col + d.2) = true ∧
    ∃ v, readCell b (row + d.1) (col + d.2) = .ok v ∧ v ≠ EMPTY

/-- Placing `player` at `(row, col)` would flip in direction `d`: the `k ≥ 1`
cells that follow `(row, col)` are on the board and hold the opponent, and the
cell right after them is on the board and holds `player`. -/
def FlipsInDirection (b : Board) (player : Nat) (row col : Int) (d : Int × Int) : Prop :=
  ∃ k : Nat, 1 ≤ k ∧
    (∀ i : Nat, 1 ≤ i → i ≤ k →
      isInBounds (row + (i : Int) * d.1) (col + (i : Int) * d.2) = true ∧
      readCell b (row + (i : Int) * d.1) (col + (i : Int) * d.2) = .ok (opponentOf player)) ∧
    isInBounds (row + ((k + 1 : Nat) : Int) * d.1) (col + ((k + 1 : Nat) : Int) * d.2) = true ∧
    readCell b (row + ((k + 1 : Nat) : Int) * d.1) (col + ((k + 1 : Nat) : Int) * d.2) = .ok player

/-- The reversed rule: `(row, col)` is empty, touches an occupied cell, and
placing `player` there flips in none of the eight directions. -/
def LegalMove (b : Board) (player : Nat) (row col : Int) : Prop :=
  readCell b row col = .ok EMPTY ∧ AdjacentToOccupied b row col ∧
    ¬ ∃ d ∈ DIRECTIONS, FlipsInDirection b player row col d

/-- Every cell of the board, in row-major order: rows 0 to 7, and columns 0 to
7 within each row. -/
def allCells : List (Int × Int) :=
  ((List.range BOARD_SIZE).map Int.ofNat).flatMap fun r =>
    ((List.range BOARD_SIZE).map Int.ofNat).map fun c => (r, c)

/-- Strict row-major order on cells. -/
def rowMajorLt (a b : Int × Int) : Prop :=
  a.1 < b.1 ∨ (a.1 = b.1 ∧ a.2 < b.2)

instance (a b : Int × Int) : Decidable (rowMajorLt a b) := by
  unfold rowMajorLt; infer_instance

/-- The player `player` has at least one legal move on board `b`. -/
def HasLegalMove (b : Board) (player : Nat) : Prop :=
  ∃ row col, isInBounds row col = true ∧ LegalMove b player row col

/-! ## Concrete states used in the examples -/

/-- The game against the automated player after Black opened at (2, 2): White,
the automated side, is to move. -/
def afterOpeningAI : ReverseOthello :=
  { board :=
      [[0, 0, 0, 0, 0, 0, 0, 0],
       [0, 0, 0, 0, 0, 0, 0, 0],
       [0, 0, 1, 0, 0, 0, 0, 0],
       [0, 0, 0, 2, 1, 0, 0, 0],
       [0, 0, 0, 1, 2, 0, 0, 0],
       [0, 0, 0, 0, 0, 0, 0, 0],
       [0, 0, 0, 0, 0, 0, 0, 0],
       [0, 0, 0, 0, 0, 0, 0, 0]],
    currentPlayer := WHITE, gameEnded := false, consecutivePasses := 0,
    isAIMode := true, isAIThinking := false }

/-- A nearly full board, Black to move: every cell is Black except a White piece
at (0, 2) and the two empty corners (0, 0) and (7, 7). -/
def lateGame : ReverseOthello :=
  { board :=
      [[0, 1, 2, 1, 1, 1, 1, 1],
       [1, 1, 1, 1, 1, 1, 1, 1],
       [1, 1, 1, 1, 1, 1, 1, 1],
       [1, 1, 1, 1, 1, 1, 1, 1],
       [1, 1, 1, 1, 1, 1, 1, 1],
       [1, 1, 1, 1, 1, 1, 1, 1],
       [1, 1, 1, 1, 1, 1, 1, 1],
       [1, 1, 1, 1, 1, 1, 1, 0]],
    currentPlayer := BLACK, gameEnded := false, consecutivePasses := 0,
    isAIMode := false, isAIThinking := false }

/-- The state `lateGame` once Black has placed a piece at (7, 7). -/
def lateGamePlaced : ReverseOthello :=
  { board :=
      [[0, 1, 2, 1, 1, 1, 1, 1],
       [1, 1, 1, 1, 1, 1, 1, 1],
       [1, 1, 1, 1, 1, 1, 1, 1],
       [1, 1, 1, 1, 1, 1, 1, 1],
       [1, 1, 1, 1, 1, 1, 1, 1],
       [1, 1, 1, 1, 1, 1, 1, 1],
       [1, 1, 1, 1, 1, 1, 1, 1],
       [1, 1, 1, 1, 1, 1, 1, 1]],
    currentPlayer := BLACK, gameEnded := false, consecutivePasses := 0,
    isAIMode := false, isAIThinking := false }

/-- The states reachable from a fresh game (in either mode) by cell clicks and
passes. -/
inductive Reachable : ReverseOthello → Prop
  | start (isAIMode : Bool) : Reachable (newGame isAIMode)
  | click {g g1 : ReverseOthello} (row col : Int) :
      Reachable g → handleCellClick g row col = .ok g1 → Reachable g1
  | pass {g g1 : ReverseOthello} :
      Reachable g → passMove g = .ok g1 → Reachable g1

/-- The opening position of a two-player game after Black and then White have
passed. -/
def twoPasses : ReverseOthello :=
  { board :=
      [[0, 0, 0, 0, 0, 0, 0, 0],
       [0, 0, 0, 0, 0, 0, 0, 0],
       [0, 0, 0, 0, 0, 0, 0, 0],
       [0, 0, 0, 2, 1, 0, 0, 0],
       [0, 0, 0, 1, 2, 0, 0, 0],
       [0, 0, 0, 0, 0, 0, 0, 0],
       [0, 0, 0, 0, 0, 0, 0, 0],
       [0, 0, 0, 0, 0, 0, 0, 0]],
    currentPlayer := BLACK, gameEnded := false, consecutivePasses := 2,
    isAIMode := false, isAIThinking := false }

/-- The state `lateGame` played to its end: Black filled both corners, neither
side can move and the game is ended. -/
def finishedGame : ReverseOthello :=
  { board :=
      [[1, 1, 2, 1, 1, 1, 1, 1],
       [1, 1, 1, 1, 1, 1, 1, 1],
       [1, 1, 1, 1, 1, 1, 1, 1],
       [1, 1, 1, 1, 1, 1, 1, 1],
       [1, 1, 1, 1, 1, 1, 1, 1],
       [1, 1, 1, 1, 1, 1, 1, 1],
       [1, 1, 1, 1, 1, 1, 1, 1],
       [1, 1, 1, 1, 1, 1, 1, 1]],
    currentPlayer := BLACK, gameEnded := true, consecutivePasses := 1,
    isAIMode := false, isAIThinking := false }

/-- The four corners of the board. -/
def IsCornerCell (m : Int × Int) : Prop :=
  m = (0, 0) ∨ m = (0, 7) ∨ m = (7, 0) ∨ m = (7, 7)

/-- The cells of row 0, row 7, column 0 and column 7. -/
def IsEdgeCell (m : Int × Int) : Prop :=
  m.1 = 0 ∨ m.1 = 7 ∨ m.2 = 0 ∨ m.2 = 7

/-- The cell `first` is the first cell of `moves` with property `P` in row-major
scan order. -/
def FirstInScanOrder (P : Int × Int → Prop) (moves : List (Int × Int)) (first : Int × Int) :
    Prop :=
  first ∈ moves ∧ P first ∧ ∀ m ∈ moves, P m → m = first ∨ rowMajorLt first m

/-- A coordinate token sits at position `i` of the text `cs`: a letter A-H of
either case, `a`, followed by a digit 1-8, `b`. -/
def TokenAt (cs : List Char) (i : Nat) (a b : Char) : Prop :=
  cs[i]? = some a ∧ cs[i + 1]? = some b ∧ isColLetter a = true ∧ isRowDigit b = true

/-- The token `a b` is the first coordinate token of the text `cs`. -/
def FirstToken (cs : List Char) (a b : Char) : Prop :=
  ∃ i, TokenAt cs i a b ∧ ∀ j, j < i → ∀ x y, ¬ TokenAt cs j x y

/-- The column a letter denotes: A and a are 0, up to H and h, which are 7. -/
def letterIndex (a : Char) : Int :=
  if 'a' ≤ a then (a.toNat : Int) - 97 else (a.toNat : Int) - 65

/-- The row a digit denotes: the digit 1 is row 0, up to 8, which is row 7. -/
def digitRow (b : Char) : Int :=
  ((b.toNat : Int) - 48) - 1

/-- A position from a game against the automated player, White to move, in
which the corner (0, 0) is a legal move for White. -/
def cornerOpen : ReverseOthello :=
  { board :=
      [[0, 0, 0, 0, 0, 0, 0, 0],
       [0, 2, 0, 0, 0, 0, 0, 0],
       [0, 0, 2, 0, 0, 1, 0, 0],
       [0, 0, 0, 2, 1, 0, 0, 0],
       [0, 0, 0, 1, 2, 0, 0, 0],
       [0, 0, 1, 0, 0, 1, 0, 0],
       [0, 0, 0, 0, 0, 0, 0, 0],
       [0, 0, 0, 0, 0, 0, 0, 0]],
    currentPlayer := WHITE, gameEnded := false, consecutivePasses := 0,
    isAIMode := true, isAIThinking := false }

/-- White's legal moves in the position `cornerOpen`, in scan order. -/
def cornerOpenMoves : List (Int × Int) :=
  [(0, 0), (0, 1), (0, 2), (1, 0), (1, 2), (1, 3), (1, 4), (1, 5), (1, 6), (2, 0), (2, 1),
   (2, 3), (2, 6), (3, 1), (3, 2), (3, 6), (4, 1), (4, 5), (4, 6), (5, 1), (5, 4), (5, 6),
   (6, 1), (6, 2), (6, 3), (6, 4), (6, 5)]

/-- The position `afterOpeningAI` while the automated player is deciding on its
move: the flag `isAIThinking` is set. -/
def thinkingAI : ReverseOthello :=
  { board :=
      [[0, 0, 0, 0, 0, 0, 0, 0],
       [0, 0, 0, 0, 0, 0, 0, 0],
       [0, 0, 1, 0, 0, 0, 0, 0],
       [0, 0, 0, 2, 1, 0, 0, 0],
       [0, 0, 0, 1, 2, 0, 0, 0],
       [0, 0, 0, 0, 0, 0, 0, 0],
       [0, 0, 0, 0, 0, 0, 0, 0],
       [0, 0, 0, 0, 0, 0, 0, 0]],
    currentPlayer := WHITE, gameEnded := false, consecutivePasses := 0,
    isAIMode := true, isAIThinking := true }

/-! # Theorems -/

/-! ## Reading the board -/

theorem isInBounds_iff (row col : Int) :
    isInBounds row col = true ↔ 0 ≤ row ∧ row < 8 ∧ 0 ≤ col ∧ col < 8 := by
  simp [isInBounds, BOARD_SIZE, and_assoc]

theorem isInBounds_eq_false_iff (row col : Int) :
    isInBounds row col = false ↔ ¬ (0 ≤ row ∧ row < 8 ∧ 0 ≤ col ∧ col < 8) := by
  rw [← isInBounds_iff]; simp

theorem readCell_ok (b : Board) (hwf : WellFormed b) (r c : Int)
    (hin : isInBounds r c = true) : ∃ v, readCell b r c = .ok v := by
  rw [isInBounds_iff] at hin
  obtain ⟨h1, h2, h3, h4⟩ := hin
  obtain ⟨hlen, hrows⟩ := hwf
  have hr : r.toNat < b.length := by rw [hlen, BOARD_SIZE]; omega
  have hc : c.toNat < (b[r.toNat]).length := by
    rw [hrows _ (List.getElem_mem hr), BOARD_SIZE]; omega
  refine ⟨(b[r.toNat])[c.toNat], ?_⟩
  simp [readCell, h1, h3, List.getElem?_eq_getElem hr, List.getElem?_eq_getElem hc]

theorem opponentOf_ne (player : Nat) : opponentOf player ≠ player := by
  unfold opponentOf
  split
  · rename_i h; rw [h]; decide
  · rename_i h; exact fun h2 => h h2.symm


theorem isAdjacentLoop_spec (b : Board) (hwf : WellFormed b) (row col : Int)
    (ds : List (Int × Int)) :
    ∃ res, isAdjacentLoop b row col ds = .ok res ∧
      (res = true ↔ ∃ d ∈ ds, isInBounds (row + d.1) (col + d.2) = true ∧
        ∃ v, readCell b (row + d.1) (col + d.2) = .ok v ∧ v ≠ EMPTY) := by
  induction ds with
  | nil => exact ⟨false, rfl, by simp⟩
  | cons d rest ih =>
    obtain ⟨dr, dc⟩ := d
    obtain ⟨res, hres, hiff⟩ := ih
    by_cases hin : isInBounds (row + dr) (col + dc) = true
    · obtain ⟨v, hv⟩ := readCell_ok b hwf _ _ hin
      by_cases hne : v = EMPTY
      · refine ⟨res, ?_, ?_⟩
        · simp [isAdjacentLoop, hin, hv, hne, hres]
        · rw [hiff]
          constructor
          · rintro ⟨d, hd, h⟩
            exact ⟨d, List.mem_cons_of_mem _ hd, h⟩
          · rintro ⟨d, hd, h1, w, hw, hw2⟩
            rcases List.mem_cons.1 hd with rfl | hd
            · rw [hv] at hw
              cases hw
              exact absurd hne hw2
            · exact ⟨d, hd, h1, w, hw, hw2⟩
      · refine ⟨true, ?_, ?_⟩
        · simp [isAdjacentLoop, hin, hv, hne]
        · simp only [true_iff]
          exact ⟨(dr, dc), List.mem_cons_self _ _, hin, v, hv, hne⟩
    · refine ⟨res, ?_, ?_⟩
      · simp [isAdjacentLoop, hin, hres]
      · rw [hiff]
        constructor
        · rintro ⟨d, hd, h⟩
          exact ⟨d, List.mem_cons_of_mem _ hd, h⟩
        · rintro ⟨d, hd, h1, h2⟩
          rcases List.mem_cons.1 hd with rfl | hd
          · exact absurd h1 hin
          · exact ⟨d, hd, h1, h2⟩

theorem flipWalk_spec (b : Board) (hwf : WellFormed b) (opp : Nat) (dr dc : Int) :
    ∀ (n : Nat) (r c : Int) (has : Bool),
      isInBounds (r + (n : Int) * dr) (c + (n : Int) * dc) = false →
      ∃ m : Nat, m ≤ n ∧
        flipWalk b opp dr dc (n + 1) r c has
          = .ok (r + (m : Int) * dr, c + (m : Int) * dc, has || decide (0 < m)) ∧
        (∀ i : Nat, i < m →
          isInBounds (r + (i : Int) * dr) (c + (i : Int) * dc) = true ∧
          readCell b (r + (i : Int) * dr) (c + (i : Int) * dc) = .ok opp) ∧
        ¬ (isInBounds (r + (m : Int) * dr) (c + (m : Int) * dc) = true ∧
          readCell b (r + (m : Int) * dr) (c + (m : Int) * dc) = .ok opp) := by
  intro n
  induction n with
  | zero =>
    intro r c has hout
    simp only [Nat.cast_zero, zero_mul, add_zero] at hout
    refine ⟨0, le_refl _, ?_, ?_, ?_⟩
    · simp [flipWalk, hout]
    · intro i hi; omega
    · simp [hout]
  | succ n ih =>
    intro r c has hout
    by_cases hin : isInBounds r c = true
    · obtain ⟨v, hv⟩ := readCell_ok b hwf _ _ hin
      by_cases hopp : v = opp
      · have hout2 : isInBounds (r + dr + (n : Int) * dr) (c + dc + (n : Int) * dc) = false := by
          have e1 : r + dr + (n : Int) * dr = r + ((n + 1 : Nat) : Int) * dr := by
            push_cast; ring
          have e2 : c + dc + (n : Int) * dc = c + ((n + 1 : Nat) : Int) * dc := by
            push_cast; ring
          rw [e1, e2]; exact hout
        obtain ⟨m, hmn, hwalk, hrun, hstop⟩ := ih (r + dr) (c + dc) true hout2
        have e1 : r + dr + (m : Int) * dr = r + ((m + 1 : Nat) : Int) * dr := by
          push_cast; ring
        have e2 : c + dc + (m : Int) * dc = c + ((m + 1 : Nat) : Int) * dc := by
          push_cast; ring
        refine ⟨m + 1, by omega, ?_, ?_, ?_⟩
        · rw [flipWalk]
          simp only [hin, hv, hopp, if_true]
          rw [hwalk, e1, e2]
          simp
        · intro i hi
          cases i with
          | zero =>
            simp only [Nat.cast_zero, zero_mul, add_zero]
            exact ⟨hin, hopp ▸ hv⟩
          | succ j =>
            have hj := hrun j (by omega)
            have f1 : r + dr + (j : Int) * dr = r + ((j + 1 : Nat) : Int) * dr := by
              push_cast; ring
            have f2 : c + dc + (j : Int) * dc = c + ((j + 1 : Nat) : Int) * dc := by
              push_cast; ring
            rw [f1, f2] at hj
            exact hj
        · rw [← e1, ← e2]; exact hstop
      · refine ⟨0, Nat.zero_le _, ?_, ?_, ?_⟩
        · rw [flipWalk]
          simp [hin, hv, hopp]
        · intro i hi; omega
        · simp only [Nat.cast_zero, zero_mul, add_zero]
          rintro ⟨_, h2⟩
          rw [hv] at h2
          cases h2
          exact hopp rfl
    · refine ⟨0, Nat.zero_le _, ?_, ?_, ?_⟩
      · rw [flipWalk]
        simp [hin]
      · intro i hi; omega
      · simp only [Nat.cast_zero, zero_mul, add_zero]
        exact fun h => hin h.1

theorem leaves_board (row col : Int) (hin : isInBounds row col = true)
    (d : Int × Int) (hd : d ∈ DIRECTIONS) :
    isInBounds (row + d.1 + (7 : Nat) * d.1) (col + d.2 + (7 : Nat) * d.2) = false := by
  rw [isInBounds_iff] at hin
  rw [isInBounds_eq_false_iff]
  simp only [DIRECTIONS, List.mem_cons, List.mem_singleton, List.not_mem_nil, or_false] at hd
  rcases hd with rfl | rfl | rfl | rfl | rfl | rfl | rfl | rfl <;> simp <;> omega

theorem canFlipInDirection_spec (g : ReverseOthello) (hwf : WellFormed g.board)
    (row col : Int) (player : Nat) (d : Int × Int)
    (hout : isInBounds (row + d.1 + (7 : Nat) * d.1) (col + d.2 + (7 : Nat) * d.2) = false) :
    ∃ res, canFlipInDirection g row col d.1 d.2 player = .ok res ∧
      (res = true ↔ FlipsInDirection g.board player row col d) := by
  obtain ⟨dr, dc⟩ := d
  simp only at hout ⊢
  by_cases hin : isInBounds (row + dr) (col + dc) = true
  · obtain ⟨v, hv⟩ := readCell_ok g.board hwf _ _ hin
    by_cases hopp : v = opponentOf player
    · obtain ⟨m, hm7, hwalk, hrun, hstop⟩ :=
        flipWalk_spec g.board hwf (opponentOf player) dr dc 7 (row + dr) (col + dc) false hout
      have hm0 : 0 < m := by
        rcases Nat.eq_zero_or_pos m with h0 | h0
        · subst h0
          exfalso
          apply hstop
          simp only [Nat.cast_zero, zero_mul, add_zero]
          exact ⟨hin, hopp ▸ hv⟩
        · exact h0
      have e1 : row + dr + (m : Int) * dr = row + ((m + 1 : Nat) : Int) * dr := by
        push_cast; ring
      have e2 : col + dc + (m : Int) * dc = col + ((m + 1 : Nat) : Int) * dc := by
        push_cast; ring
      have hrun2 : ∀ i : Nat, 1 ≤ i → i ≤ m →
          isInBounds (row + (i : Int) * dr) (col + (i : Int) * dc) = true ∧
          readCell g.board (row + (i : Int) * dr) (col + (i : Int) * dc)
            = .ok (opponentOf player) := by
        intro i hi1 him
        obtain ⟨j, rfl⟩ : ∃ j, i = j + 1 := ⟨i - 1, by omega⟩
        have hj := hrun j (by omega)
        have f1 : row + dr + (j : Int) * dr = row + ((j + 1 : Nat) : Int) * dr := by
          push_cast; ring
        have f2 : col + dc + (j : Int) * dc = col + ((j + 1 : Nat) : Int) * dc := by
          push_cast; ring
        rw [f1, f2] at hj
        exact hj
      have hcode : canFlipInDirection g row col dr dc player =
          (if isInBounds (row + dr + (m : Int) * dr) (col + dc + (m : Int) * dc) = true then
            match readCell g.board (row + dr + (m : Int) * dr) (col + dc + (m : Int) * dc) with
            | .error e => .error e
            | .ok w => .ok (decide (w = player))
          else .ok false) := by
        unfold canFlipInDirection
        have hw : flipWalk g.board (if player = BLACK then WHITE else BLACK) dr dc BOARD_SIZE
            (row + dr) (col + dc) false
            = .ok (row + dr + (m : Int) * dr, col + dc + (m : Int) * dc, true) := by
          have := hwalk
          simp only [opponentOf, hm0, decide_True, Bool.false_or] at this
          exact this
        have hv2 : readCell g.board (row + dr) (col + dc)
            = .ok (if player = BLACK then WHITE else BLACK) := by
          rw [hv, hopp]; rfl
        simp only [hin, hv2, hw, Bool.not_true, Bool.true_and, ne_eq, not_true_eq_false,
          if_false, Bool.false_eq_true]
      by_cases hin2 : isInBounds (row + dr + (m : Int) * dr) (col + dc + (m : Int) * dc) = true
      · obtain ⟨w, hw⟩ := readCell_ok g.board hwf _ _ hin2
        refine ⟨decide (w = player), ?_, ?_⟩
        · rw [hcode]; simp only [hin2, hw, if_true]
        · simp only [decide_eq_true_eq]
          constructor
          · intro hwp
            refine ⟨m, hm0, hrun2, ?_, ?_⟩
            · rw [← e1, ← e2]; exact hin2
            · rw [← e1, ← e2, hw, hwp]
          · rintro ⟨k, hk1, hkrun, hkin, hkown⟩
            have hkm : k = m := by
              rcases Nat.lt_trichotomy k m with hlt | heq | hgt
              · exfalso
                have := (hrun2 (k + 1) (by omega) (by omega)).2
                rw [hkown] at this
                exact opponentOf_ne player (Except.ok.inj this).symm
              · exact heq
              · exfalso
                apply hstop
                have := hkrun (m + 1) (by omega) (by omega)
                rw [e1, e2]
                exact this
            subst hkm
            rw [← e1, ← e2, hw] at hkown
            cases hkown
            rfl
      · refine ⟨false, ?_, ?_⟩
        · rw [hcode]; simp only [hin2, if_false, Bool.false_eq_true]
        · simp only [Bool.false_eq_true, false_iff]
          rintro ⟨k, hk1, hkrun, hkin, hkown⟩
          rcases Nat.lt_trichotomy k m with hlt | heq | hgt
          · have := (hrun2 (k + 1) (by omega) (by omega)).2
            rw [hkown] at this
            exact opponentOf_ne player (Except.ok.inj this).symm
          · subst heq
            rw [← e1, ← e2] at hkin
            exact hin2 hkin
          · apply hstop
            have := hkrun (m + 1) (by omega) (by omega)
            rw [e1, e2]
            exact this
    · refine ⟨false, ?_, ?_⟩
      · unfold canFlipInDirection
        have hopp2 : ¬ v = (if player = BLACK then WHITE else BLACK) := hopp
        simp [hin, hv, hopp2]
      · simp only [Bool.false_eq_true, false_iff]
        rintro ⟨k, hk1, hkrun, -, -⟩
        have := (hkrun 1 (le_refl _) hk1).2
        simp only [Nat.cast_one, one_mul] at this
        rw [hv] at this
        cases this
        exact hopp rfl
  · refine ⟨false, ?_, ?_⟩
    · unfold canFlipInDirection
      simp [hin]
    · simp only [Bool.false_eq_true, false_iff]
      rintro ⟨k, hk1, hkrun, -, -⟩
      have := (hkrun 1 (le_refl _) hk1).1
      simp only [Nat.cast_one, one_mul] at this
      exact hin this

theorem wouldFlipLoop_spec (g : ReverseOthello) (hwf : WellFormed g.board)
    (row col : Int) (player : Nat) (ds : List (Int × Int))
    (hout : ∀ d ∈ ds,
      isInBounds (row + d.1 + (7 : Nat) * d.1) (col + d.2 + (7 : Nat) * d.2) = false) :
    ∃ res, wouldFlipLoop g row col player ds = .ok res ∧
      (res = true ↔ ∃ d ∈ ds, FlipsInDirection g.board player row col d) := by
  induction ds with
  | nil => exact ⟨false, rfl, by simp⟩
  | cons d rest ih =>
    obtain ⟨res, hres, hiff⟩ := ih (fun e he => hout e (List.mem_cons_of_mem _ he))
    obtain ⟨r1, hr1, hiff1⟩ :=
      canFlipInDirection_spec g hwf row col player d (hout d (List.mem_cons_self _ _))
    obtain ⟨dr, dc⟩ := d
    simp only at hr1
    cases r1 with
    | true =>
      refine ⟨true, ?_, ?_⟩
      · simp only [wouldFlipLoop, hr1]
      · simp only [true_iff]
        exact ⟨(dr, dc), List.mem_cons_self _ _, hiff1.1 rfl⟩
    | false =>
      refine ⟨res, ?_, ?_⟩
      · simp only [wouldFlipLoop, hr1, hres]
      · rw [hiff]
        constructor
        · rintro ⟨e, he, h⟩
          exact ⟨e, List.mem_cons_of_mem _ he, h⟩
        · rintro ⟨e, he, h⟩
          rcases List.mem_cons.1 he with rfl | he
          · have := hiff1.2 h
            cases this
          · exact ⟨e, he, h⟩

theorem isAdjacentToExistingPiece_spec (g : ReverseOthello) (hwf : WellFormed g.board)
    (row col : Int) :
    ∃ res, isAdjacentToExistingPiece g row col = .ok res ∧
      (res = true ↔ AdjacentToOccupied g.board row col) :=
  isAdjacentLoop_spec g.board hwf row col DIRECTIONS

theorem wouldFlipPieces_spec (g : ReverseOthello) (hwf : WellFormed g.board)
    (row col : Int) (hin : isInBounds row col = true) (player : Nat) :
    ∃ res, wouldFlipPieces g row col player = .ok res ∧
      (res = true ↔ ∃ d ∈ DIRECTIONS, FlipsInDirection g.board player row col d) :=
  wouldFlipLoop_spec g hwf row col player DIRECTIONS (fun d hd => leaves_board row col hin d hd)

/-- The three tests that `isValidMove` and `getValidMoves` both make on a cell. -/
theorem legal_tests (g : ReverseOthello) (hwf : WellFormed g.board)
    (row col : Int) (hin : isInBounds row col = true) (player : Nat) :
    ∃ v adj flip, readCell g.board row col = .ok v ∧
      isAdjacentToExistingPiece g row col = .ok adj ∧
      wouldFlipPieces g row col player = .ok flip ∧
      ((v = EMPTY ∧ adj = true ∧ flip = false) ↔ LegalMove g.board player row col) := by
  obtain ⟨v, hv⟩ := readCell_ok g.board hwf row col hin
  obtain ⟨adj, hadj, hadjiff⟩ := isAdjacentToExistingPiece_spec g hwf row col
  obtain ⟨flip, hflip, hflipiff⟩ := wouldFlipPieces_spec g hwf row col hin player
  refine ⟨v, adj, flip, hv, hadj, hflip, ?_⟩
  unfold LegalMove
  rw [← hadjiff, ← hflipiff, hv]
  constructor
  · rintro ⟨h1, h2, h3⟩
    exact ⟨by rw [h1], h2, by simp [h3]⟩
  · rintro ⟨h1, h2, h3⟩
    exact ⟨Except.ok.inj h1, h2, by simpa using h3⟩

theorem isValidMove_spec (g : ReverseOthello) (row col : Int)
    (hwf : WellFormed g.board) (hin : isInBounds row col = true) :
    ∃ res, isValidMove g row col = .ok res ∧
      (res = true ↔ LegalMove g.board g.currentPlayer row col) := by
  obtain ⟨v, adj, flip, hv, hadj, hflip, hiff⟩ := legal_tests g hwf row col hin g.currentPlayer
  refine ⟨decide (v = EMPTY) && adj && !flip, ?_, ?_⟩
  · unfold isValidMove
    rw [hv]
    by_cases h : v = EMPTY
    · cases adj <;> cases flip <;> simp [h, hadj, hflip]
    · simp [h]
  · rw [← hiff]
    cases adj <;> cases flip <;> simp

section
open Classical

theorem getValidMovesCols_eq (g : ReverseOthello) (hwf : WellFormed g.board) (player : Nat)
    (row : Int) (cols : List Int) (hcols : ∀ c ∈ cols, isInBounds row c = true) :
    ∀ acc, getValidMovesCols g player row cols acc
      = .ok (acc ++ (cols.map fun c => (row, c)).filter
          fun m => decide (LegalMove g.board player m.1 m.2)) := by
  induction cols with
  | nil => intro acc; simp [getValidMovesCols]
  | cons c rest ih =>
    intro acc
    have ih2 := ih (fun c hc => hcols c (List.mem_cons_of_mem _ hc))
    obtain ⟨v, adj, flip, hv, hadj, hflip, hiff⟩ :=
      legal_tests g hwf row c (hcols c (List.mem_cons_self _ _)) player
    rw [getValidMovesCols, hv]
    by_cases h1 : v = EMPTY
    · cases adj with
      | false =>
        have hnot : ¬ LegalMove g.board player row c := fun h => by simpa using (hiff.2 h).2.1
        simp only [h1, if_true, hadj, ih2, List.map_cons, List.filter_cons, hnot,
          decide_False, Bool.false_eq_true, if_false]
      | true =>
        cases flip with
        | true =>
          have hnot : ¬ LegalMove g.board player row c := fun h => by simpa using (hiff.2 h).2.2
          simp only [h1, if_true, hadj, hflip, ih2, List.map_cons, List.filter_cons, hnot,
            decide_False, Bool.false_eq_true, if_false]
        | false =>
          have hyes : LegalMove g.board player row c := hiff.1 ⟨h1, rfl, rfl⟩
          simp only [h1, if_true, hadj, hflip, ih2, List.map_cons, List.filter_cons, hyes,
            decide_True, List.append_assoc, List.singleton_append]
    · have hnot : ¬ LegalMove g.board player row c := fun h => h1 (hiff.2 h).1
      simp only [h1, if_false, ih2, List.map_cons, List.filter_cons, hnot,
        decide_False, Bool.false_eq_true]

theorem getValidMovesRows_eq (g : ReverseOthello) (hwf : WellFormed g.board) (player : Nat)
    (rows : List Int) (hrows : ∀ r ∈ rows, 0 ≤ r ∧ r < 8) :
    ∀ acc, getValidMovesRows g player rows acc
      = .ok (acc ++ (rows.flatMap fun r =>
          ((List.range BOARD_SIZE).map Int.ofNat).map fun c => (r, c)).filter
          fun m => decide (LegalMove g.board player m.1 m.2)) := by
  induction rows with
  | nil => intro acc; simp [getValidMovesRows]
  | cons r rest ih =>
    intro acc
    have ih2 := ih (fun r hr => hrows r (List.mem_cons_of_mem _ hr))
    have hr := hrows r (List.mem_cons_self _ _)
    have hcols : ∀ c ∈ (List.range BOARD_SIZE).map Int.ofNat, isInBounds r c = true := by
      intro c hc
      rw [isInBounds_iff]
      simp only [List.mem_map, List.mem_range, BOARD_SIZE] at hc
      obtain ⟨n, hn, rfl⟩ := hc
      simp only [Int.ofNat_eq_coe]
      omega
    rw [getValidMovesRows, getValidMovesCols_eq g hwf player r _ hcols]
    simp only [ih2, List.flatMap_cons, List.filter_append, List.append_assoc]

end

/-- The cells in the order `getValidMoves` scans them. -/
theorem getValidMoves_eq_filter (g : ReverseOthello) (hwf : WellFormed g.board) (player : Nat) :
    ∃ keep : Int × Int → Bool,
      (∀ m, keep m = true ↔ LegalMove g.board player m.1 m.2) ∧
      getValidMoves g player = .ok (allCells.filter keep) := by
  classical
  refine ⟨fun m => decide (LegalMove g.board player m.1 m.2), fun m => by simp, ?_⟩
  unfold getValidMoves
  rw [getValidMovesRows_eq g hwf player]
  · simp [allCells]
  · intro r hr
    simp only [List.mem_map, List.mem_range, BOARD_SIZE] at hr
    obtain ⟨n, hn, rfl⟩ := hr
    simp only [Int.ofNat_eq_coe]
    omega

theorem allCells_pairwise : allCells.Pairwise rowMajorLt := by decide

theorem mem_allCells (m : Int × Int) : m ∈ allCells ↔ isInBounds m.1 m.2 = true := by
  obtain ⟨r, c⟩ := m
  rw [isInBounds_iff]
  simp only [allCells, List.mem_flatMap, List.mem_map, List.mem_range, BOARD_SIZE,
    Prod.mk.injEq, Int.ofNat_eq_coe]
  constructor
  · rintro ⟨_, ⟨a, ha, rfl⟩, ⟨_, ⟨b, hb, rfl⟩, rfl, rfl⟩⟩
    omega
  · rintro ⟨h1, h2, h3, h4⟩
    refine ⟨r, ⟨r.toNat, by omega, by omega⟩, c, ⟨c.toNat, by omega, by omega⟩, rfl, rfl⟩

theorem readCell_out (b : Board) (hwf : WellFormed b) (r c : Int)
    (hout : isInBounds r c = false) : readCell b r c = .error .outOfRange := by
  rw [isInBounds_eq_false_iff] at hout
  obtain ⟨hlen, hrows⟩ := hwf
  rw [BOARD_SIZE] at hlen
  unfold readCell
  by_cases h0 : 0 ≤ r ∧ 0 ≤ c
  · rw [if_pos h0]
    by_cases hr : r.toNat < b.length
    · have hc : (b[r.toNat]).length = 8 := hrows _ (List.getElem_mem hr)
      have hnone : (b[r.toNat])[c.toNat]? = none := List.getElem?_eq_none (by omega)
      rw [List.getElem?_eq_getElem hr]
      simp only [hnone]
    · have hnone : b[r.toNat]? = none := List.getElem?_eq_none (by omega)
      simp only [hnone]
  · rw [if_neg h0]

theorem getValidMoves_spec (g : ReverseOthello) (player : Nat)
    (hwf : WellFormed g.board) :
    ∃ moves, getValidMoves g player = .ok moves ∧
      (∀ row col, (row, col) ∈ moves ↔
        isInBounds row col = true ∧ LegalMove g.board player row col) ∧
      moves.Pairwise rowMajorLt ∧ moves.Nodup ∧
      (player = g.currentPlayer →
        ∀ row col, (row, col) ∈ moves ↔ isValidMove g row col = .ok true) := by
  obtain ⟨keep, hkeep, hmoves⟩ := getValidMoves_eq_filter g hwf player
  have hmem : ∀ row col, (row, col) ∈ allCells.filter keep ↔
      isInBounds row col = true ∧ LegalMove g.board player row col := by
    intro row col
    rw [List.mem_filter, mem_allCells, hkeep]
  have hpw : (allCells.filter keep).Pairwise rowMajorLt :=
    allCells_pairwise.sublist (List.filter_sublist _)
  refine ⟨allCells.filter keep, hmoves, hmem, hpw, ?_, ?_⟩
  · refine hpw.imp ?_
    rintro a b hlt rfl
    unfold rowMajorLt at hlt
    omega
  · rintro rfl row col
    rw [hmem]
    constructor
    · rintro ⟨hin, hlegal⟩
      obtain ⟨res, hres, hiff⟩ := isValidMove_spec g row col hwf hin
      rw [hres, hiff.2 hlegal]
    · intro hvalid
      have hin : isInBounds row col = true := by
        by_contra hout
        have hread := readCell_out g.board hwf row col (by simpa using hout)
        unfold isValidMove at hvalid
        rw [hread] at hvalid
        cases hvalid
      obtain ⟨res, hres, hiff⟩ := isValidMove_spec g row col hwf hin
      rw [hres] at hvalid
      exact ⟨hin, hiff.1 (Except.ok.inj hvalid)⟩

/-! ## Placing a piece -/

theorem writeCell_spec (b : Board) (hwf : WellFormed b) (r c : Int)
    (hin : isInBounds r c = true) (v : Nat) :
    ∃ b1, writeCell b r c v = .ok b1 ∧ WellFormed b1 ∧ readCell b1 r c = .ok v ∧
      ∀ r1 c1, (r1, c1) ≠ (r, c) → readCell b1 r1 c1 = readCell b r1 c1 := by
  rw [isInBounds_iff] at hin
  obtain ⟨h1, h2, h3, h4⟩ := hin
  obtain ⟨hlen, hrows⟩ := hwf
  have hlen8 : b.length = 8 := hlen
  have hr : r.toNat < b.length := by omega
  have hclen : (b[r.toNat]).length = 8 := hrows _ (List.getElem_mem hr)
  have hc : c.toNat < (b[r.toNat]).length := by omega
  refine ⟨b.set r.toNat ((b[r.toNat]).set c.toNat v), ?_, ⟨?_, ?_⟩, ?_, ?_⟩
  · simp [writeCell, h1, h3, List.getElem?_eq_getElem hr, hc]
  · rw [List.length_set]; exact hlen
  · intro line hline
    rcases List.mem_or_eq_of_mem_set hline with h | h
    · exact hrows _ h
    · rw [h, List.length_set]; exact hrows _ (List.getElem_mem hr)
  · simp [readCell, h1, h3, hr, hc]
  · intro r1 c1 hne
    unfold readCell
    by_cases h0 : 0 ≤ r1 ∧ 0 ≤ c1
    · simp only [h0, and_self, if_true]
      by_cases hrr : r.toNat = r1.toNat
      · have hcc : c.toNat ≠ c1.toNat := by
          intro hcc
          apply hne
          have e1 : r1 = r := by omega
          have e2 : c1 = c := by omega
          rw [e1, e2]
        rw [List.getElem?_set, if_pos hrr, if_pos hr, ← hrr, List.getElem?_eq_getElem hr]
        simp only [List.getElem?_set_ne hcc]
      · rw [List.getElem?_set_ne hrr]
    · simp only [h0, if_false]

theorem makeMove_spec (g : ReverseOthello) (hwf : WellFormed g.board) (row col : Int)
    (hin : isInBounds row col = true) :
    ∃ b1, makeMove g row col = .ok { g with board := b1, consecutivePasses := 0 } ∧
      WellFormed b1 ∧ readCell b1 row col = .ok g.currentPlayer ∧
      ∀ r1 c1, (r1, c1) ≠ (row, col) → readCell b1 r1 c1 = readCell g.board r1 c1 := by
  obtain ⟨b1, hw, hwf1, hread, hframe⟩ := writeCell_spec g.board hwf row col hin g.currentPlayer
  refine ⟨b1, ?_, hwf1, hread, hframe⟩
  simp only [makeMove, hw]

/-! ## The end-of-turn check -/

theorem getValidMoves_nil_iff (g : ReverseOthello) (hwf : WellFormed g.board) (player : Nat) :
    ∃ moves, getValidMoves g player = .ok moves ∧
      (moves.length = 0 ↔ ¬ HasLegalMove g.board player) := by
  obtain ⟨moves, hmoves, hmem, -, -, -⟩ := getValidMoves_spec g player hwf
  refine ⟨moves, hmoves, ?_⟩
  constructor
  · rintro hnil ⟨row, col, hin, hlegal⟩
    have : (row, col) ∈ moves := (hmem row col).2 ⟨hin, hlegal⟩
    rw [List.length_eq_zero] at hnil
    rw [hnil] at this
    cases this
  · intro hno
    rw [List.length_eq_zero]
    apply List.eq_nil_iff_forall_not_mem.2
    rintro ⟨row, col⟩ hm
    exact hno ⟨row, col, (hmem row col).1 hm⟩

theorem switchPlayer_currentPlayer (g : ReverseOthello) :
    (switchPlayer g).currentPlayer = opponentOf g.currentPlayer := rfl

theorem checkGameEnd_cases (g : ReverseOthello) (hwf : WellFormed g.board) :
    (HasLegalMove g.board g.currentPlayer ∧ checkGameEnd g = .ok g) ∨
    (¬ HasLegalMove g.board g.currentPlayer ∧ g.consecutivePasses + 1 ≥ 2 ∧
      checkGameEnd g
        = .ok { g with consecutivePasses := g.consecutivePasses + 1, gameEnded := true }) ∨
    (¬ HasLegalMove g.board g.currentPlayer ∧ g.consecutivePasses + 1 < 2 ∧
      ¬ HasLegalMove g.board (opponentOf g.currentPlayer) ∧
      checkGameEnd g
        = .ok { g with consecutivePasses := g.consecutivePasses + 1, gameEnded := true,
                       currentPlayer := opponentOf g.currentPlayer }) ∨
    (¬ HasLegalMove g.board g.currentPlayer ∧ g.consecutivePasses + 1 < 2 ∧
      HasLegalMove g.board (opponentOf g.currentPlayer) ∧
      checkGameEnd g
        = .ok { g with consecutivePasses := g.consecutivePasses + 1,
                       currentPlayer := opponentOf g.currentPlayer }) := by
  obtain ⟨moves, hmoves, hnil⟩ := getValidMoves_nil_iff g hwf g.currentPlayer
  by_cases hhas : HasLegalMove g.board g.currentPlayer
  · left
    refine ⟨hhas, ?_⟩
    have hlen : moves.length ≠ 0 := fun h => (hnil.1 h) hhas
    have hpos : moves.length > 0 := Nat.pos_of_ne_zero hlen
    simp only [checkGameEnd, hmoves, hpos, decide_True, Bool.not_true, Bool.false_eq_true,
      if_false]
  · right
    have hlen : moves.length = 0 := hnil.2 hhas
    by_cases h2 : g.consecutivePasses + 1 ≥ 2
    · left
      refine ⟨hhas, h2, ?_⟩
      simp only [checkGameEnd, hmoves, hlen, gt_iff_lt, lt_self_iff_false, decide_False,
        Bool.not_false, if_true, h2, endGame]
    · right
      obtain ⟨omoves, homoves, honil⟩ :=
        getValidMoves_nil_iff
          (switchPlayer { g with consecutivePasses := g.consecutivePasses + 1 }) hwf
          (opponentOf g.currentPlayer)
      have homoves2 : getValidMoves
          (switchPlayer { g with consecutivePasses := g.consecutivePasses + 1 })
          (switchPlayer { g with consecutivePasses := g.consecutivePasses + 1 }).currentPlayer
          = .ok omoves := homoves
      by_cases hohas : HasLegalMove g.board (opponentOf g.currentPlayer)
      · right
        refine ⟨hhas, by omega, hohas, ?_⟩
        have holen : omoves.length ≠ 0 := fun h => (honil.1 h) hohas
        simp only [checkGameEnd, hmoves, hlen, gt_iff_lt, lt_self_iff_false, decide_False,
          Bool.not_false, if_true, h2, if_false, homoves2, holen]
        rfl
      · left
        refine ⟨hhas, by omega, hohas, ?_⟩
        have holen : omoves.length = 0 := honil.2 hohas
        simp only [checkGameEnd, hmoves, hlen, gt_iff_lt, lt_self_iff_false, decide_False,
          Bool.not_false, if_true, h2, if_false, homoves2, holen]
        rfl

/-! ## Clicking a cell -/

theorem legalMove_of_isValidMove (g : ReverseOthello) (row col : Int)
    (hwf : WellFormed g.board) (hin : isInBounds row col = true)
    (hvalid : isValidMove g row col = .ok true) :
    LegalMove g.board g.currentPlayer row col := by
  obtain ⟨res, hres, hiff⟩ := isValidMove_spec g row col hwf hin
  rw [hres] at hvalid
  exact hiff.1 (Except.ok.inj hvalid)

theorem isValidMove_of_legalMove (g : ReverseOthello) (row col : Int)
    (hwf : WellFormed g.board) (hin : isInBounds row col = true)
    (hlegal : LegalMove g.board g.currentPlayer row col) :
    isValidMove g row col = .ok true := by
  obtain ⟨res, hres, hiff⟩ := isValidMove_spec g row col hwf hin
  rw [hres, hiff.2 hlegal]

theorem isValidMove_of_not_legalMove (g : ReverseOthello) (row col : Int)
    (hwf : WellFormed g.board) (hin : isInBounds row col = true)
    (hlegal : ¬ LegalMove g.board g.currentPlayer row col) :
    isValidMove g row col = .ok false := by
  obtain ⟨res, hres, hiff⟩ := isValidMove_spec g row col hwf hin
  rw [hres]
  cases res with
  | true => exact absurd (hiff.1 rfl) hlegal
  | false => rfl

theorem checkGameEnd_board (g : ReverseOthello) (hwf : WellFormed g.board) :
    ∃ g1, checkGameEnd g = .ok g1 ∧ g1.board = g.board ∧ g1.isAIMode = g.isAIMode ∧
      g1.isAIThinking = g.isAIThinking := by
  rcases checkGameEnd_cases g hwf with ⟨-, h⟩ | ⟨-, -, h⟩ | ⟨-, -, -, h⟩ | ⟨-, -, -, h⟩ <;>
    exact ⟨_, h, rfl, rfl, rfl⟩

theorem handleCellClick_accepted (g : ReverseOthello) (row col : Int)
    (hwf : WellFormed g.board) (hend : g.gameEnded = false)
    (hthink : g.isAIThinking = false) (hturn : ¬ (g.isAIMode = true ∧ g.currentPlayer = WHITE))
    (hin : isInBounds row col = true)
    (hlegal : LegalMove g.board g.currentPlayer row col) :
    ∃ b1, WellFormed b1 ∧ readCell b1 row col = .ok g.currentPlayer ∧
      (∀ r1 c1, (r1, c1) ≠ (row, col) → readCell b1 r1 c1 = readCell g.board r1 c1) ∧
      handleCellClick g row col
        = checkGameEnd (switchPlayer { g with board := b1, consecutivePasses := 0 }) := by
  obtain ⟨b1, hmake, hwf1, hread, hframe⟩ := makeMove_spec g hwf row col hin
  refine ⟨b1, hwf1, hread, hframe, ?_⟩
  have hvalid := isValidMove_of_legalMove g row col hwf hin hlegal
  have hgate : (g.isAIMode && decide (g.currentPlayer = WHITE)) = false := by
    cases hm : g.isAIMode
    · rfl
    · simp only [Bool.true_and, decide_eq_false_iff_not]
      exact fun h => hturn ⟨hm, h⟩
  simp only [handleCellClick, hend, hthink, Bool.or_self, Bool.false_eq_true, if_false, hgate,
    hvalid, hmake]

theorem handleCellClick_blocked (g : ReverseOthello) (row col : Int)
    (h : ¬ (g.isAIThinking = false ∧ ¬ (g.isAIMode = true ∧ g.currentPlayer = WHITE))) :
    handleCellClick g row col = .ok g := by
  unfold handleCellClick
  by_cases hthink : g.isAIThinking = true
  · simp [hthink]
  · have hthink2 : g.isAIThinking = false := by simpa using hthink
    have hturn : g.isAIMode = true ∧ g.currentPlayer = WHITE := by
      by_contra hn
      exact h ⟨hthink2, hn⟩
    simp [hturn.1, hturn.2]

theorem handleCellClick_frame_aux (g : ReverseOthello) (row col : Int)
    (hwf : WellFormed g.board) (hend : g.gameEnded = false)
    (hin : isInBounds row col = true)
    (hlegal : LegalMove g.board g.currentPlayer row col) :
    ∃ g1, handleCellClick g row col = .ok g1 ∧ WellFormed g1.board ∧
      (∀ r1 c1, (r1, c1) ≠ (row, col) → readCell g1.board r1 c1 = readCell g.board r1 c1) ∧
      ((g.isAIThinking = false ∧ ¬ (g.isAIMode = true ∧ g.currentPlayer = WHITE)) →
        readCell g1.board row col = .ok g.currentPlayer) ∧
      (¬ (g.isAIThinking = false ∧ ¬ (g.isAIMode = true ∧ g.currentPlayer = WHITE)) →
        g1 = g) := by
  by_cases hgate : g.isAIThinking = false ∧ ¬ (g.isAIMode = true ∧ g.currentPlayer = WHITE)
  · obtain ⟨b1, hwf1, hread, hframe, hclick⟩ :=
      handleCellClick_accepted g row col hwf hend hgate.1 hgate.2 hin hlegal
    obtain ⟨g1, hg1, hboard, -, -⟩ :=
      checkGameEnd_board (switchPlayer { g with board := b1, consecutivePasses := 0 }) hwf1
    have hb : g1.board = b1 := hboard
    refine ⟨g1, by rw [hclick, hg1], by rw [hb]; exact hwf1, ?_, ?_, ?_⟩
    · rw [hb]; exact hframe
    · intro _; rw [hb]; exact hread
    · intro hn; exact absurd hgate hn
  · refine ⟨g, handleCellClick_blocked g row col hgate, hwf, fun _ _ _ => rfl, ?_, fun _ => rfl⟩
    intro h; exact absurd h hgate

theorem hasLegalMove_iff_length (g : ReverseOthello) (hwf : WellFormed g.board) (player : Nat)
    (moves : List (Int × Int)) (h : getValidMoves g player = .ok moves) :
    HasLegalMove g.board player ↔ moves.length ≠ 0 := by
  obtain ⟨moves1, hmoves1, hnil⟩ := getValidMoves_nil_iff g hwf player
  rw [h] at hmoves1
  cases hmoves1
  constructor
  · intro hhas hlen
    exact hnil.1 hlen hhas
  · intro hlen
    by_contra hno
    exact hlen (hnil.2 hno)

theorem checkGameEnd_turn_aux (g : ReverseOthello) (hwf : WellFormed g.board)
    (hend : g.gameEnded = false) :
    ∃ g1, checkGameEnd g = .ok g1 ∧ g1.board = g.board ∧
      (HasLegalMove g.board g.currentPlayer → g1 = g) ∧
      (¬ HasLegalMove g.board g.currentPlayer →
        g1.consecutivePasses = g.consecutivePasses + 1 ∧
        (g.consecutivePasses + 1 ≥ 2 → g1.gameEnded = true) ∧
        (g.consecutivePasses + 1 < 2 →
          g1.currentPlayer = opponentOf g.currentPlayer ∧
          (g1.gameEnded = true ↔ ¬ HasLegalMove g.board (opponentOf g.currentPlayer)))) ∧
      (∀ g0 row col g2, g0.currentPlayer = BLACK → makeMove g0 row col = .ok g2 →
        g = switchPlayer g2 → ¬ HasLegalMove g.board WHITE → HasLegalMove g.board BLACK →
        g1.currentPlayer = BLACK ∧ g1.consecutivePasses = 1 ∧ g1.gameEnded = false) := by
  have hplaced : ∀ g0 row col g2, g0.currentPlayer = BLACK → makeMove g0 row col = .ok g2 →
      g = switchPlayer g2 → g.currentPlayer = WHITE ∧ g.consecutivePasses = 0 := by
    intro g0 row col g2 hblack hmake hg
    unfold makeMove at hmake
    split at hmake
    · cases hmake
    · cases hmake
      rw [hg]
      simp [switchPlayer, hblack]
  have hopp : ∀ p, p = WHITE → opponentOf p = BLACK := by
    intro p hp; rw [hp]; decide
  rcases checkGameEnd_cases g hwf with ⟨hhas, h⟩ | ⟨hno, h2, h⟩ | ⟨hno, h2, hono, h⟩ |
      ⟨hno, h2, hohas, h⟩
  · refine ⟨_, h, rfl, fun _ => rfl, fun hn => absurd hhas hn, ?_⟩
    intro g0 row col g2 hblack hmake hg hnw _
    obtain ⟨hcur, -⟩ := hplaced g0 row col g2 hblack hmake hg
    rw [hcur] at hhas
    exact absurd hhas hnw
  · refine ⟨_, h, rfl, fun hh => absurd hh hno, fun _ => ⟨rfl, fun _ => rfl, fun hlt => ?_⟩, ?_⟩
    · omega
    · intro g0 row col g2 hblack hmake hg _ _
      obtain ⟨-, hpass⟩ := hplaced g0 row col g2 hblack hmake hg
      omega
  · refine ⟨_, h, rfl, fun hh => absurd hh hno,
      fun _ => ⟨rfl, fun hge => ?_, fun _ => ⟨rfl, ?_⟩⟩, ?_⟩
    · omega
    · exact ⟨fun _ => hono, fun _ => rfl⟩
    · intro g0 row col g2 hblack hmake hg _ hb
      obtain ⟨hcur, -⟩ := hplaced g0 row col g2 hblack hmake hg
      rw [hopp _ hcur] at hono
      exact absurd hb hono
  · refine ⟨_, h, rfl, fun hh => absurd hh hno,
      fun _ => ⟨rfl, fun hge => ?_, fun _ => ⟨rfl, ?_⟩⟩, ?_⟩
    · omega
    · constructor
      · intro he
        have he2 : g.gameEnded = true := he
        rw [hend] at he2
        cases he2
      · intro hn; exact absurd hohas hn
    · intro g0 row col g2 hblack hmake hg _ _
      obtain ⟨hcur, hpass⟩ := hplaced g0 row col g2 hblack hmake hg
      refine ⟨hopp _ hcur, ?_, hend⟩
      show g.consecutivePasses + 1 = 1
      omega

/-! ## Invariants of the turn controller -/

theorem isInBounds_of_isValidMove (g : ReverseOthello) (hwf : WellFormed g.board)
    (row col : Int) (res : Bool) (h : isValidMove g row col = .ok res) :
    isInBounds row col = true := by
  by_contra hout
  have hread := readCell_out g.board hwf row col (by simpa using hout)
  unfold isValidMove at h
  rw [hread] at h
  cases h

theorem checkGameEnd_invariant (g g1 : ReverseOthello) (hwf : WellFormed g.board)
    (h : checkGameEnd g = .ok g1) :
    WellFormed g1.board ∧ (g1.gameEnded = true ∨ HasLegalMove g1.board g1.currentPlayer) := by
  rcases checkGameEnd_cases g hwf with ⟨hhas, h1⟩ | ⟨-, -, h1⟩ | ⟨-, -, -, h1⟩ |
      ⟨-, -, hohas, h1⟩
  all_goals
    rw [h1] at h
    cases h
  · exact ⟨hwf, Or.inr hhas⟩
  · exact ⟨hwf, Or.inl rfl⟩
  · exact ⟨hwf, Or.inl rfl⟩
  · exact ⟨hwf, Or.inr hohas⟩

theorem handleCellClick_invariant (g g1 : ReverseOthello) (row col : Int)
    (hwf : WellFormed g.board)
    (hinv : g.gameEnded = true ∨ HasLegalMove g.board g.currentPlayer)
    (h : handleCellClick g row col = .ok g1) :
    WellFormed g1.board ∧ (g1.gameEnded = true ∨ HasLegalMove g1.board g1.currentPlayer) := by
  unfold handleCellClick at h
  split at h
  · cases h; exact ⟨hwf, hinv⟩
  · split at h
    · cases h; exact ⟨hwf, hinv⟩
    · split at h
      · cases h
      · cases h; exact ⟨hwf, hinv⟩
      · rename_i hvalid
        have hin := isInBounds_of_isValidMove g hwf row col true hvalid
        obtain ⟨b1, hmake, hwf1, -, -⟩ := makeMove_spec g hwf row col hin
        rw [hmake] at h
        exact checkGameEnd_invariant _ g1 hwf1 h

theorem passMove_invariant (g g1 : ReverseOthello) (hwf : WellFormed g.board)
    (hinv : g.gameEnded = true ∨ HasLegalMove g.board g.currentPlayer)
    (h : passMove g = .ok g1) :
    WellFormed g1.board ∧ (g1.gameEnded = true ∨ HasLegalMove g1.board g1.currentPlayer) := by
  unfold passMove at h
  split at h
  · cases h; exact ⟨hwf, hinv⟩
  · exact checkGameEnd_invariant
      (switchPlayer { g with consecutivePasses := g.consecutivePasses + 1 }) g1 hwf h

theorem newGame_invariant (isAIMode : Bool) :
    WellFormed (newGame isAIMode).board ∧
      ((newGame isAIMode).gameEnded = true ∨
        HasLegalMove (newGame isAIMode).board (newGame isAIMode).currentPlayer) := by
  refine ⟨by cases isAIMode <;> decide, Or.inr ?_⟩
  have hboard : (newGame isAIMode).board = (newGame false).board := by cases isAIMode <;> rfl
  have hcur : (newGame isAIMode).currentPlayer = BLACK := by cases isAIMode <;> rfl
  rw [hboard, hcur]
  exact (hasLegalMove_iff_length (newGame false) (by decide) BLACK
    [(2, 2), (2, 4), (2, 5), (3, 5), (4, 2), (5, 2), (5, 3), (5, 5)] (by decide)).2 (by decide)

theorem reachable_invariant (g : ReverseOthello) (h : Reachable g) :
    WellFormed g.board ∧ (g.gameEnded = true ∨ HasLegalMove g.board g.currentPlayer) := by
  induction h with
  | start isAIMode => exact newGame_invariant isAIMode
  | click row col _ hclick ih => exact handleCellClick_invariant _ _ row col ih.1 ih.2 hclick
  | pass _ hpass ih => exact passMove_invariant _ _ ih.1 ih.2 hpass

theorem passMove_ends (g g1 : ReverseOthello) (hwf : WellFormed g.board)
    (hend : g.gameEnded = false) (hpass : passMove g = .ok g1)
    (hno : ¬ HasLegalMove g.board (opponentOf g.currentPlayer)) :
    g1.gameEnded = true ∧ g1.consecutivePasses = g.consecutivePasses + 2 := by
  unfold passMove at hpass
  split at hpass
  · rename_i h
    rw [hend] at h
    cases h
  rcases checkGameEnd_cases
      (switchPlayer { g with consecutivePasses := g.consecutivePasses + 1 }) hwf with
    ⟨hhas, -⟩ | ⟨-, -, h1⟩ | ⟨-, hlt, -, -⟩ | ⟨-, hlt, -, -⟩
  · exact absurd hhas hno
  · rw [h1] at hpass
    cases hpass
    exact ⟨rfl, rfl⟩
  · have : g.consecutivePasses + 1 + 1 < 2 := hlt
    omega
  · have : g.consecutivePasses + 1 + 1 < 2 := hlt
    omega

theorem reachable_twoPasses : Reachable twoPasses := by
  have h1 : passMove (newGame false)
      = .ok { newGame false with currentPlayer := WHITE, consecutivePasses := 1 } := by decide
  have h2 : passMove { newGame false with currentPlayer := WHITE, consecutivePasses := 1 }
      = .ok twoPasses := by decide
  exact Reachable.pass (Reachable.pass (Reachable.start false) h1) h2

theorem handleCellClick_rejected (g : ReverseOthello) (row col : Int)
    (hwf : WellFormed g.board) (hin : isInBounds row col = true)
    (h : ¬ LegalMove g.board g.currentPlayer row col ∨ g.gameEnded = true) :
    handleCellClick g row col = .ok g := by
  unfold handleCellClick
  rcases h with hno | hend
  · have hvalid := isValidMove_of_not_legalMove g row col hwf hin hno
    split
    · rfl
    · split
      · rfl
      · rw [hvalid]
  · simp [hend]

theorem passMove_ended (g : ReverseOthello) (hend : g.gameEnded = true) :
    passMove g = .ok g := by
  simp [passMove, hend]

theorem not_legalMove_of_isValidMove (g : ReverseOthello) (row col : Int)
    (hwf : WellFormed g.board) (hin : isInBounds row col = true)
    (hvalid : isValidMove g row col = .ok false) :
    ¬ LegalMove g.board g.currentPlayer row col := by
  intro hlegal
  rw [isValidMove_of_legalMove g row col hwf hin hlegal] at hvalid
  cases hvalid

/-! ## The heuristic policy -/

theorem isCorner_iff (m : Int × Int) : isCorner m = true ↔ IsCornerCell m := by
  obtain ⟨r, c⟩ := m
  simp only [isCorner, IsCornerCell, Bool.and_eq_true, Bool.or_eq_true, decide_eq_true_eq,
    Prod.mk.injEq]
  constructor
  · rintro ⟨h1 | h1, h2 | h2⟩ <;> simp [h1, h2]
  · rintro (⟨h1, h2⟩ | ⟨h1, h2⟩ | ⟨h1, h2⟩ | ⟨h1, h2⟩) <;> simp [h1, h2]

theorem isEdge_iff (m : Int × Int) : isEdge m = true ↔ IsEdgeCell m := by
  simp only [isEdge, IsEdgeCell, Bool.or_eq_true, decide_eq_true_eq, or_assoc]

theorem halfDraw_inRange : InRange halfDraw := by
  intro n hn
  unfold halfDraw
  omega

theorem moveAt_index_mem (moves : List (Int × Int)) (i : Int) (hlo : 0 ≤ i)
    (hhi : i < (moves.length : Int)) :
    ∃ row col, moveAt moves i = .move row col ∧ (row, col) ∈ moves := by
  have hlt : i.toNat < moves.length := by omega
  refine ⟨(moves[i.toNat]).1, (moves[i.toNat]).2, ?_, List.getElem_mem hlt⟩
  simp only [moveAt, hlo, if_true, List.getElem?_eq_getElem hlt]
  rfl

theorem moveAt_random_mem (moves : List (Int × Int)) (randomIndex : RandomSource)
    (hdraw : InRange randomIndex) (hne : moves.length ≠ 0) :
    ∃ row col, moveAt moves (randomIndex moves.length) = .move row col ∧
      (row, col) ∈ moves := by
  obtain ⟨hlo, hhi⟩ := hdraw moves.length (Nat.pos_of_ne_zero hne)
  exact moveAt_index_mem moves _ hlo hhi

theorem moveAt_filter_first (p : Int × Int → Bool) (moves : List (Int × Int))
    (hsorted : moves.Pairwise rowMajorLt) (hne : (moves.filter p).length > 0) :
    ∃ row col, moveAt (moves.filter p) 0 = .move row col ∧
      FirstInScanOrder (fun m => p m = true) moves (row, col) := by
  have hpw : (moves.filter p).Pairwise rowMajorLt := hsorted.sublist (List.filter_sublist _)
  cases hf : moves.filter p with
  | nil => rw [hf] at hne; simp at hne
  | cons first rest =>
    obtain ⟨row, col⟩ := first
    rw [hf] at hpw
    have hmem : (row, col) ∈ moves.filter p := by rw [hf]; exact List.mem_cons_self _ _
    rw [List.mem_filter] at hmem
    refine ⟨row, col, by simp [moveAt], hmem.1, hmem.2, ?_⟩
    intro m hm hpm
    have : m ∈ moves.filter p := List.mem_filter.2 ⟨hm, hpm⟩
    rw [hf] at this
    rcases List.mem_cons.1 this with h | h
    · exact Or.inl h
    · exact Or.inr ((List.pairwise_cons.1 hpw).1 m h)

theorem heuristicChoice_spec (moves : List (Int × Int)) (randomIndex : RandomSource)
    (hdraw : InRange randomIndex) (hsorted : moves.Pairwise rowMajorLt) :
    (heuristicChoice moves randomIndex = .null ↔ moves.length = 0) ∧
    (moves.length ≠ 0 →
      ∃ row col, heuristicChoice moves randomIndex = .move row col ∧ (row, col) ∈ moves ∧
        ((∃ m ∈ moves, IsCornerCell m) → FirstInScanOrder IsCornerCell moves (row, col)) ∧
        ((¬ ∃ m ∈ moves, IsCornerCell m) → (∃ m ∈ moves, IsEdgeCell m) →
          FirstInScanOrder IsEdgeCell moves (row, col))) := by
  have hsome : moves.length ≠ 0 →
      ∃ row col, heuristicChoice moves randomIndex = .move row col ∧ (row, col) ∈ moves ∧
        ((∃ m ∈ moves, IsCornerCell m) → FirstInScanOrder IsCornerCell moves (row, col)) ∧
        ((¬ ∃ m ∈ moves, IsCornerCell m) → (∃ m ∈ moves, IsEdgeCell m) →
          FirstInScanOrder IsEdgeCell moves (row, col)) := by
    intro hne
    unfold heuristicChoice
    rw [if_neg hne]
    by_cases hc : (moves.filter isCorner).length > 0
    · obtain ⟨row, col, hat, hfirst⟩ := moveAt_filter_first isCorner moves hsorted hc
      have hfirst2 : FirstInScanOrder IsCornerCell moves (row, col) :=
        ⟨hfirst.1, (isCorner_iff _).1 hfirst.2.1,
          fun m hm hp => hfirst.2.2 m hm ((isCorner_iff m).2 hp)⟩
      refine ⟨row, col, by simp only [hc, if_true, hat], hfirst.1, fun _ => hfirst2, ?_⟩
      intro hno
      exact absurd ⟨(row, col), hfirst2.1, hfirst2.2.1⟩ hno
    · have hnoc : ¬ ∃ m ∈ moves, IsCornerCell m := by
        rintro ⟨m, hm, hp⟩
        apply hc
        exact List.length_pos_of_mem (List.mem_filter.2 ⟨hm, (isCorner_iff m).2 hp⟩)
      by_cases he : (moves.filter isEdge).length > 0
      · obtain ⟨row, col, hat, hfirst⟩ := moveAt_filter_first isEdge moves hsorted he
        have hfirst2 : FirstInScanOrder IsEdgeCell moves (row, col) :=
          ⟨hfirst.1, (isEdge_iff _).1 hfirst.2.1,
            fun m hm hp => hfirst.2.2 m hm ((isEdge_iff m).2 hp)⟩
        refine ⟨row, col, by simp only [hc, if_false, he, if_true, hat], hfirst.1, ?_,
          fun _ _ => hfirst2⟩
        intro hyes; exact absurd hyes hnoc
      · have hnoe : ¬ ∃ m ∈ moves, IsEdgeCell m := by
          rintro ⟨m, hm, hp⟩
          apply he
          exact List.length_pos_of_mem (List.mem_filter.2 ⟨hm, (isEdge_iff m).2 hp⟩)
        obtain ⟨row, col, hat, hmem⟩ := moveAt_random_mem moves randomIndex hdraw hne
        refine ⟨row, col, by simp only [hc, if_false, he, hat], hmem, ?_, ?_⟩
        · intro hyes; exact absurd hyes hnoc
        · intro _ hyes; exact absurd hyes hnoe
  refine ⟨?_, hsome⟩
  constructor
  · intro hnull
    by_contra hne
    obtain ⟨row, col, hres, -⟩ := hsome hne
    rw [hres] at hnull
    cases hnull
  · intro hlen
    simp [heuristicChoice, hlen]

theorem getHeuristicMove_spec (g : ReverseOthello) (randomIndex : RandomSource)
    (hwf : WellFormed g.board) (hdraw : InRange randomIndex) :
    ∃ moves res, getValidMoves g WHITE = .ok moves ∧ getHeuristicMove g randomIndex = .ok res ∧
      (res = .null ↔ ¬ HasLegalMove g.board WHITE) ∧
      (HasLegalMove g.board WHITE →
        ∃ row col, res = .move row col ∧ (row, col) ∈ moves ∧
          ((∃ m ∈ moves, IsCornerCell m) → FirstInScanOrder IsCornerCell moves (row, col)) ∧
          ((¬ ∃ m ∈ moves, IsCornerCell m) → (∃ m ∈ moves, IsEdgeCell m) →
            FirstInScanOrder IsEdgeCell moves (row, col))) := by
  obtain ⟨moves, hmoves, -, hsorted, -, -⟩ := getValidMoves_spec g WHITE hwf
  have hlen := hasLegalMove_iff_length g hwf WHITE moves hmoves
  obtain ⟨hnull, hsome⟩ := heuristicChoice_spec moves randomIndex hdraw hsorted
  refine ⟨moves, heuristicChoice moves randomIndex, hmoves, ?_, ?_, ?_⟩
  · simp only [getHeuristicMove, hmoves]
  · rw [hnull, hlen]
    simp
  · intro hhas
    exact hsome (hlen.1 hhas)

/-! ## Parsing the oracle's answer -/

theorem matchCoordinate_of_tokenAt :
    ∀ (cs : List Char) (i : Nat) (a b : Char), TokenAt cs i a b →
      (∀ j, j < i → ∀ x y, ¬ TokenAt cs j x y) → matchCoordinate cs = some (a, b) := by
  intro cs
  induction cs with
  | nil =>
    intro i a b h _
    simp [TokenAt] at h
  | cons x tl ih =>
    intro i a b h hmin
    cases tl with
    | nil =>
      obtain ⟨-, h2, -, -⟩ := h
      simp at h2
    | cons y rest =>
      cases i with
      | zero =>
        obtain ⟨h1, h2, h3, h4⟩ := h
        simp only [List.getElem?_cons_zero, Option.some.injEq] at h1
        simp only [zero_add, List.getElem?_cons_succ, List.getElem?_cons_zero,
          Option.some.injEq] at h2
        subst h1 h2
        simp [matchCoordinate, h3, h4]
      | succ k =>
        have h0 : ¬ (isColLetter x = true ∧ isRowDigit y = true) := by
          intro hxy
          exact hmin 0 (Nat.succ_pos k) x y ⟨by simp, by simp, hxy.1, hxy.2⟩
        have hstep : matchCoordinate (x :: y :: rest) = matchCoordinate (y :: rest) := by
          rw [matchCoordinate]
          have : (isColLetter x && isRowDigit y) = false := by
            simpa [Bool.and_eq_true] using h0
          simp [this]
        rw [hstep]
        apply ih k a b
        · obtain ⟨h1, h2, h3, h4⟩ := h
          exact ⟨by simpa using h1, by simpa using h2, h3, h4⟩
        · intro j hj u v hT
          apply hmin (j + 1) (by omega) u v
          obtain ⟨h1, h2, h3, h4⟩ := hT
          exact ⟨by simpa using h1, by simpa using h2, h3, h4⟩

theorem matchCoordinate_classes :
    ∀ (cs : List Char) (a b : Char), matchCoordinate cs = some (a, b) →
      isColLetter a = true ∧ isRowDigit b = true := by
  intro cs
  induction cs with
  | nil => intro a b h; simp [matchCoordinate] at h
  | cons x tl ih =>
    intro a b h
    cases tl with
    | nil => simp [matchCoordinate] at h
    | cons y rest =>
      rw [matchCoordinate] at h
      by_cases hxy : (isColLetter x && isRowDigit y) = true
      · rw [if_pos hxy] at h
        simp only [Option.some.injEq, Prod.mk.injEq] at h
        obtain ⟨rfl, rfl⟩ := h
        simpa [Bool.and_eq_true] using hxy
      · rw [if_neg hxy] at h
        exact ih a b h

theorem toUpper_letterIndex (a : Char) (h : isColLetter a = true) :
    (a.toUpper.toNat : Int) - 65 = letterIndex a := by
  have hval : a.toNat = 65 ∨ a.toNat = 66 ∨ a.toNat = 67 ∨ a.toNat = 68 ∨ a.toNat = 69 ∨
      a.toNat = 70 ∨ a.toNat = 71 ∨ a.toNat = 72 ∨ a.toNat = 97 ∨ a.toNat = 98 ∨
      a.toNat = 99 ∨ a.toNat = 100 ∨ a.toNat = 101 ∨ a.toNat = 102 ∨ a.toNat = 103 ∨
      a.toNat = 104 := by
    simp only [isColLetter, Bool.or_eq_true, Bool.and_eq_true, decide_eq_true_eq,
      Char.le_def, UInt32.le_def, Fin.le_def] at h
    have e : a.toNat = a.val.val.val := rfl
    rw [e]
    rcases h with ⟨h1, h2⟩ | ⟨h1, h2⟩
    · have h1' : 65 ≤ a.val.val.val := h1
      have h2' : a.val.val.val ≤ 72 := h2
      omega
    · have h1' : 97 ≤ a.val.val.val := h1
      have h2' : a.val.val.val ≤ 104 := h2
      omega
  have hchar : ∀ n : Nat, a.toNat = n → ∀ hn : n.isValidChar, a = Char.ofNatAux n hn := by
    intro n hn hv
    apply Char.ext
    apply UInt32.ext
    exact hn
  rcases hval with h | h | h | h | h | h | h | h | h | h | h | h | h | h | h | h <;>
    (rw [hchar _ h (by decide)]; decide)

theorem any_eq_true_iff_mem (validMoves : List (Int × Int)) (row col : Int) :
    (validMoves.any fun (r, c) => decide (r = row) && decide (c = col)) = true ↔
      (row, col) ∈ validMoves := by
  rw [List.any_eq_true]
  constructor
  · rintro ⟨⟨r, c⟩, hm, h⟩
    simp only [Bool.and_eq_true, decide_eq_true_eq] at h
    obtain ⟨rfl, rfl⟩ := h
    exact hm
  · intro hm
    exact ⟨(row, col), hm, by simp⟩

theorem parseAIResponse_token (s : String) (validMoves : List (Int × Int))
    (randomIndex : RandomSource) (a b : Char)
    (hmatch : matchCoordinate s.data = some (a, b))
    (hvalid : (digitRow b, letterIndex a) ∈ validMoves) :
    parseAIResponse (.text s) validMoves randomIndex
      = .ok (.move (digitRow b) (letterIndex a)) := by
  have hclass := matchCoordinate_classes s.data a b hmatch
  have hcol := toUpper_letterIndex a hclass.1
  have hany := (any_eq_true_iff_mem validMoves (digitRow b) (letterIndex a)).2 hvalid
  simp only [parseAIResponse, hmatch, hcol]
  unfold digitRow at hany ⊢
  rw [if_pos hany]

theorem parseAIResponse_fallback (s : String) (validMoves : List (Int × Int))
    (randomIndex : RandomSource)
    (h : matchCoordinate s.data = none ∨
      ∃ a b, matchCoordinate s.data = some (a, b) ∧
        (digitRow b, letterIndex a) ∉ validMoves) :
    parseAIResponse (.text s) validMoves randomIndex
      = .ok (moveAt validMoves (randomIndex validMoves.length)) := by
  rcases h with hmatch | ⟨a, b, hmatch, hvalid⟩
  · simp only [parseAIResponse, hmatch]
  · have hclass := matchCoordinate_classes s.data a b hmatch
    have hcol := toUpper_letterIndex a hclass.1
    have hany : ¬ (validMoves.any fun (r, c) =>
        decide (r = (b.toNat : Int) - 48 - 1) && decide (c = letterIndex a)) = true := by
      intro h
      exact hvalid ((any_eq_true_iff_mem validMoves _ _).1 h)
    simp only [parseAIResponse, hmatch, hcol]
    rw [if_neg hany]

theorem parseAIResponse_mem (s : String) (validMoves : List (Int × Int))
    (randomIndex : RandomSource) (hne : validMoves ≠ []) (hdraw : InRange randomIndex) :
    ∃ row col, parseAIResponse (.text s) validMoves randomIndex = .ok (.move row col) ∧
      (row, col) ∈ validMoves := by
  have hlen : validMoves.length ≠ 0 := fun h => hne (List.length_eq_zero.1 h)
  obtain ⟨row, col, hat, hmem⟩ := moveAt_random_mem validMoves randomIndex hdraw hlen
  cases hmatch : matchCoordinate s.data with
  | none =>
    refine ⟨row, col, ?_, hmem⟩
    rw [parseAIResponse_fallback s validMoves randomIndex (Or.inl hmatch), hat]
  | some ab =>
    obtain ⟨a, b⟩ := ab
    by_cases hvalid : (digitRow b, letterIndex a) ∈ validMoves
    · exact ⟨_, _, parseAIResponse_token s validMoves randomIndex a b hmatch hvalid, hvalid⟩
    · refine ⟨row, col, ?_, hmem⟩
      rw [parseAIResponse_fallback s validMoves randomIndex
        (Or.inr ⟨a, b, hmatch, hvalid⟩), hat]

theorem firstToken_of_matchCoordinate :
    ∀ (cs : List Char) (a b : Char), matchCoordinate cs = some (a, b) → FirstToken cs a b := by
  intro cs
  induction cs with
  | nil => intro a b h; simp [matchCoordinate] at h
  | cons x tl ih =>
    intro a b h
    cases tl with
    | nil => simp [matchCoordinate] at h
    | cons y rest =>
      rw [matchCoordinate] at h
      by_cases hxy : (isColLetter x && isRowDigit y) = true
      · rw [if_pos hxy] at h
        simp only [Option.some.injEq, Prod.mk.injEq] at h
        obtain ⟨rfl, rfl⟩ := h
        have hcl : isColLetter x = true ∧ isRowDigit y = true := by
          simpa [Bool.and_eq_true] using hxy
        exact ⟨0, ⟨by simp, by simp, hcl.1, hcl.2⟩, fun j hj => absurd hj (Nat.not_lt_zero j)⟩
      · rw [if_neg hxy] at h
        obtain ⟨i, ⟨h1, h2, h3, h4⟩, hmin⟩ := ih a b h
        refine ⟨i + 1, ⟨by simpa using h1, by simpa using h2, h3, h4⟩, ?_⟩
        intro j hj u v hT
        obtain ⟨t1, t2, t3, t4⟩ := hT
        cases j with
        | zero =>
          have e1 : u = x := by simpa using t1.symm
          have e2 : v = y := by simpa using t2.symm
          subst e1 e2
          apply hxy
          simp [t3, t4]
        | succ k =>
          exact hmin k (by omega) u v ⟨by simpa using t1, by simpa using t2, t3, t4⟩

theorem generated_token (row col : Int) (hin : isInBounds row col = true) :
    ∃ a b, matchCoordinate (generateValidMovesText [(row, col)]).data = some (a, b) ∧
      digitRow b = row ∧ letterIndex a = col := by
  rw [isInBounds_iff] at hin
  obtain ⟨h1, h2, h3, h4⟩ := hin
  refine ⟨Char.ofNat (65 + col).toNat, Char.ofNat (49 + row).toNat, ?_⟩
  interval_cases row <;> interval_cases col <;> decide

theorem parseAIResponse_generated (row col : Int) (hin : isInBounds row col = true)
    (validMoves : List (Int × Int)) (randomIndex : RandomSource) :
    (∃ a b, FirstToken (generateValidMovesText [(row, col)]).data a b ∧
      digitRow b = row ∧ letterIndex a = col) ∧
    ((row, col) ∈ validMoves →
      parseAIResponse (.text (generateValidMovesText [(row, col)])) validMoves randomIndex
        = .ok (.move row col)) := by
  obtain ⟨a, b, hmatch, hrow, hcol⟩ := generated_token row col hin
  refine ⟨⟨a, b, firstToken_of_matchCoordinate _ a b hmatch, hrow, hcol⟩, ?_⟩
  intro hvalid
  have h := parseAIResponse_token (generateValidMovesText [(row, col)]) validMoves
    randomIndex a b hmatch (by rw [hrow, hcol]; exact hvalid)
  rw [hrow, hcol] at h
  exact h

theorem parseAIResponse_A1 (validMoves : List (Int × Int)) (randomIndex : RandomSource)
    (hvalid : (0, 0) ∈ validMoves) :
    parseAIResponse (.text "A1") validMoves randomIndex = .ok (.move 0 0) := by
  have hmatch : matchCoordinate "A1".data = some ('A', '1') := by decide
  have hrow : digitRow '1' = 0 := by decide
  have hcol : letterIndex 'A' = 0 := by decide
  have h := parseAIResponse_token "A1" validMoves randomIndex 'A' '1' hmatch
    (by rw [hrow, hcol]; exact hvalid)
  rw [hrow, hcol] at h
  exact h

theorem parseAIResponse_accepts_aux (s : String) (validMoves : List (Int × Int))
    (randomIndex : RandomSource) (hne : validMoves ≠ []) (hdraw : InRange randomIndex) :
    (∃ row col, parseAIResponse (.text s) validMoves randomIndex = .ok (.move row col) ∧
      (row, col) ∈ validMoves) ∧
    (∀ a b, FirstToken s.data a b → (digitRow b, letterIndex a) ∈ validMoves →
      parseAIResponse (.text s) validMoves randomIndex
        = .ok (.move (digitRow b) (letterIndex a))) ∧
    ((0, 0) ∈ validMoves →
      parseAIResponse (.text "A1") validMoves randomIndex = .ok (.move 0 0)) ∧
    (∀ row col, isInBounds row col = true →
      (∃ a b, FirstToken (generateValidMovesText [(row, col)]).data a b ∧
        digitRow b = row ∧ letterIndex a = col) ∧
      ((row, col) ∈ validMoves →
        parseAIResponse (.text (generateValidMovesText [(row, col)])) validMoves randomIndex
          = .ok (.move row col))) := by
  refine ⟨parseAIResponse_mem s validMoves randomIndex hne hdraw, ?_,
    parseAIResponse_A1 validMoves randomIndex,
    fun row col hin => parseAIResponse_generated row col hin validMoves randomIndex⟩
  rintro a b ⟨i, htok, hmin⟩ hvalid
  exact parseAIResponse_token s validMoves randomIndex a b
    (matchCoordinate_of_tokenAt s.data i a b htok hmin) hvalid

theorem firstToken_go_e4 : FirstToken "go e4".data 'e' '4' := by
  refine ⟨3, ⟨by decide, by decide, by decide, by decide⟩, ?_⟩
  intro j hj x y hT
  obtain ⟨h1, h2, h3, h4⟩ := hT
  interval_cases j
  · have e : y = 'o' := by simpa using h2.symm
    subst e
    exact absurd h4 (by decide)
  · have e : y = ' ' := by simpa using h2.symm
    subst e
    exact absurd h4 (by decide)
  · have e : y = 'e' := by simpa using h2.symm
    subst e
    exact absurd h4 (by decide)

theorem matchCoordinate_none_of_no_token :
    ∀ (cs : List Char), (∀ i x y, ¬ TokenAt cs i x y) → matchCoordinate cs = none := by
  intro cs
  induction cs with
  | nil => intro _; rfl
  | cons x tl ih =>
    intro hno
    cases tl with
    | nil => rfl
    | cons y rest =>
      have h0 : ¬ (isColLetter x = true ∧ isRowDigit y = true) := by
        intro hxy
        exact hno 0 x y ⟨by simp, by simp, hxy.1, hxy.2⟩
      have hcond : (isColLetter x && isRowDigit y) = false := by
        simpa [Bool.and_eq_true] using h0
      rw [matchCoordinate]
      simp only [hcond, Bool.false_eq_true, if_false]
      apply ih
      intro i u v hT
      obtain ⟨h1, h2, h3, h4⟩ := hT
      exact hno (i + 1) u v ⟨by simpa using h1, by simpa using h2, h3, h4⟩

theorem parseAIResponse_fallback_aux (s : String) (validMoves : List (Int × Int))
    (randomIndex : RandomSource) (hne : validMoves ≠ []) (hdraw : InRange randomIndex)
    (hbad : (∀ i x y, ¬ TokenAt s.data i x y) ∨
      ∃ a b, FirstToken s.data a b ∧ (digitRow b, letterIndex a) ∉ validMoves) :
    parseAIResponse (.text s) validMoves randomIndex
        = .ok (moveAt validMoves (randomIndex validMoves.length)) ∧
      ∃ row col, parseAIResponse (.text s) validMoves randomIndex = .ok (.move row col) ∧
        validMoves[(randomIndex validMoves.length).toNat]? = some (row, col) ∧
        (row, col) ∈ validMoves := by
  have hlen : validMoves.length ≠ 0 := fun h => hne (List.length_eq_zero.1 h)
  obtain ⟨hlo, hhi⟩ := hdraw validMoves.length (Nat.pos_of_ne_zero hlen)
  have hlt : (randomIndex validMoves.length).toNat < validMoves.length := by omega
  have hparse : parseAIResponse (.text s) validMoves randomIndex
      = .ok (moveAt validMoves (randomIndex validMoves.length)) := by
    apply parseAIResponse_fallback
    rcases hbad with hno | ⟨a, b, ⟨i, htok, hmin⟩, hvalid⟩
    · exact Or.inl (matchCoordinate_none_of_no_token s.data hno)
    · exact Or.inr ⟨a, b, matchCoordinate_of_tokenAt s.data i a b htok hmin, hvalid⟩
  refine ⟨hparse, (validMoves[(randomIndex validMoves.length).toNat]).1,
    (validMoves[(randomIndex validMoves.length).toNat]).2, ?_, ?_, List.getElem_mem hlt⟩
  · rw [hparse]
    simp only [moveAt, hlo, if_true, List.getElem?_eq_getElem hlt]
    rfl
  · rw [List.getElem?_eq_getElem hlt]

theorem no_token_Z9 : ∀ i x y, ¬ TokenAt "Z9".data i x y := by
  intro i x y hT
  obtain ⟨h1, h2, h3, h4⟩ := hT
  cases i with
  | zero =>
    have e : x = 'Z' := by simpa using h1.symm
    subst e
    exact absurd h3 (by decide)
  | succ k =>
    have : ("Z9".data)[k + 1 + 1]? = none := by
      apply List.getElem?_eq_none
      show 2 ≤ k + 1 + 1
      omega
    rw [this] at h2
    cases h2

theorem parse_Z9_cornerOpen :
    parseAIResponse (.text "Z9") cornerOpenMoves halfDraw = .ok (.move 3 1) := by
  decide

/-! ## The opening position -/

theorem initializeBoard_fields (g : ReverseOthello) :
    (initializeBoard g).board = (newGame false).board ∧
      (initializeBoard g).currentPlayer = BLACK ∧
      (initializeBoard g).consecutivePasses = 0 ∧
      (initializeBoard g).gameEnded = false ∧
      (initializeBoard g).isAIMode = g.isAIMode ∧
      (initializeBoard g).isAIThinking = g.isAIThinking :=
  ⟨rfl, rfl, rfl, rfl, rfl, rfl⟩

theorem opening_cells (row col : Int) :
    isInBounds row col = true →
      readCell (newGame false).board row col
        = .ok (if (row, col) = (3, 3) ∨ (row, col) = (4, 4) then WHITE
               else if (row, col) = (3, 4) ∨ (row, col) = (4, 3) then BLACK
               else EMPTY) := by
  intro hin
  rw [isInBounds_iff] at hin
  obtain ⟨h1, h2, h3, h4⟩ := hin
  interval_cases row <;> interval_cases col <;> rfl

theorem countPieces_congr (g g1 : ReverseOthello) (h : g.board = g1.board) :
    countPieces g = countPieces g1 := by
  have hcols : ∀ (row : Int) (cols : List Int) (acc : Nat × Nat),
      countPiecesCols g row cols acc = countPiecesCols g1 row cols acc := by
    intro row cols
    induction cols with
    | nil => intro acc; rfl
    | cons c rest ih =>
      intro acc
      obtain ⟨bc, wc⟩ := acc
      simp only [countPiecesCols, h, ih]
  have hrows : ∀ (rows : List Int) (acc : Nat × Nat),
      countPiecesRows g rows acc = countPiecesRows g1 rows acc := by
    intro rows
    induction rows with
    | nil => intro acc; rfl
    | cons r rest ih =>
      intro acc
      simp only [countPiecesRows, hcols, ih]
  exact hrows _ _

/-! ## Totality of the rule engine -/

theorem flipWalk_guarded (b : Board) (hwf : WellFormed b) (opp : Nat) (dr dc : Int) :
    ∀ (fuel : Nat) (r c : Int) (has : Bool) (e : Err),
      flipWalk b opp dr dc fuel r c has = .error e → e = .fuel := by
  intro fuel
  induction fuel with
  | zero =>
    intro r c has e h
    simp only [flipWalk] at h
    cases h
    rfl
  | succ n ih =>
    intro r c has e h
    rw [flipWalk] at h
    by_cases hin : isInBounds r c = true
    · obtain ⟨v, hv⟩ := readCell_ok b hwf r c hin
      simp only [hin, if_true, hv] at h
      by_cases hopp : v = opp
      · rw [if_pos hopp] at h
        exact ih _ _ _ e h
      · rw [if_neg hopp] at h
        cases h
    · simp only [hin, Bool.false_eq_true, if_false] at h
      cases h

theorem canFlipInDirection_guarded (g : ReverseOthello) (hwf : WellFormed g.board)
    (row col dr dc : Int) (player : Nat) (e : Err)
    (h : canFlipInDirection g row col dr dc player = .error e) : e = .fuel := by
  unfold canFlipInDirection at h
  by_cases hin : isInBounds (row + dr) (col + dc) = true
  · obtain ⟨v, hv⟩ := readCell_ok g.board hwf _ _ hin
    simp only [hin, Bool.not_true, Bool.false_eq_true, if_false, hv] at h
    by_cases hopp : v = (if player = BLACK then WHITE else BLACK)
    · simp only [hopp, ne_eq, not_true_eq_false, if_false] at h
      cases hwalk : flipWalk g.board (if player = BLACK then WHITE else BLACK) dr dc
          BOARD_SIZE (row + dr) (col + dc) false with
      | error e1 =>
        rw [hwalk] at h
        cases h
        exact flipWalk_guarded g.board hwf _ dr dc _ _ _ _ _ hwalk
      | ok res =>
        obtain ⟨r1, c1, has⟩ := res
        rw [hwalk] at h
        simp only at h
        by_cases hcond : (has && isInBounds r1 c1) = true
        · have hin1 : isInBounds r1 c1 = true := by
            simp only [Bool.and_eq_true] at hcond
            exact hcond.2
          obtain ⟨w, hw⟩ := readCell_ok g.board hwf _ _ hin1
          rw [if_pos hcond, hw] at h
          cases h
        · rw [if_neg hcond] at h
          cases h
    · simp only [ne_eq, hopp, not_false_eq_true, if_true] at h
      cases h
  · simp only [hin, Bool.not_false, if_true] at h
    cases h

theorem wouldFlipLoop_guarded (g : ReverseOthello) (hwf : WellFormed g.board)
    (row col : Int) (player : Nat) (ds : List (Int × Int)) (e : Err)
    (h : wouldFlipLoop g row col player ds = .error e) : e = .fuel := by
  induction ds with
  | nil => simp only [wouldFlipLoop] at h; cases h
  | cons d rest ih =>
    obtain ⟨dr, dc⟩ := d
    rw [wouldFlipLoop] at h
    split at h
    · rename_i e1 hflip
      cases h
      exact canFlipInDirection_guarded g hwf row col dr dc player _ hflip
    · cases h
    · exact ih h

theorem rule_engine_total_aux (g : ReverseOthello) (player : Nat) (row col : Int)
    (hwf : WellFormed g.board) (hin : isInBounds row col = true) :
    (∃ res, isAdjacentToExistingPiece g row col = .ok res) ∧
    (∀ d ∈ DIRECTIONS, ∃ res, canFlipInDirection g row col d.1 d.2 player = .ok res) ∧
    (∃ res, wouldFlipPieces g row col player = .ok res) ∧
    (∃ res, isValidMove g row col = .ok res) ∧
    (∃ moves, getValidMoves g player = .ok moves) ∧
    (∀ d ∈ DIRECTIONS, ∀ has : Bool, ∃ m : Nat, m ≤ 7 ∧
      flipWalk g.board (opponentOf player) d.1 d.2 BOARD_SIZE (row + d.1) (col + d.2) has
        = .ok (row + d.1 + (m : Int) * d.1, col + d.2 + (m : Int) * d.2,
            has || decide (0 < m)) ∧
      ∀ i : Nat, i < m →
        isInBounds (row + d.1 + (i : Int) * d.1) (col + d.2 + (i : Int) * d.2) = true) ∧
    (∀ (r c dr dc : Int) (p : Nat),
      isAdjacentToExistingPiece g r c ≠ .error .outOfRange ∧
      canFlipInDirection g r c dr dc p ≠ .error .outOfRange ∧
      wouldFlipPieces g r c p ≠ .error .outOfRange) := by
  refine ⟨?_, ?_, ?_, ?_, ?_, ?_, ?_⟩
  · obtain ⟨res, hres, -⟩ := isAdjacentToExistingPiece_spec g hwf row col
    exact ⟨res, hres⟩
  · intro d hd
    obtain ⟨res, hres, -⟩ :=
      canFlipInDirection_spec g hwf row col player d (leaves_board row col hin d hd)
    exact ⟨res, hres⟩
  · obtain ⟨res, hres, -⟩ := wouldFlipPieces_spec g hwf row col hin player
    exact ⟨res, hres⟩
  · obtain ⟨res, hres, -⟩ := isValidMove_spec g row col hwf hin
    exact ⟨res, hres⟩
  · obtain ⟨moves, hmoves, -⟩ := getValidMoves_spec g player hwf
    exact ⟨moves, hmoves⟩
  · intro d hd has
    obtain ⟨m, hm, hwalk, hrun, -⟩ :=
      flipWalk_spec g.board hwf (opponentOf player) d.1 d.2 7 (row + d.1) (col + d.2) has
        (leaves_board row col hin d hd)
    exact ⟨m, hm, hwalk, fun i hi => (hrun i hi).1⟩
  · intro r c dr dc p
    refine ⟨?_, ?_, ?_⟩
    · obtain ⟨res, hres, -⟩ := isAdjacentToExistingPiece_spec g hwf r c
      rw [hres]
      exact fun h => by cases h
    · intro h
      have := canFlipInDirection_guarded g hwf r c dr dc p _ h
      cases this
    · intro h
      have := wouldFlipLoop_guarded g hwf r c p DIRECTIONS _ h
      cases this

/-! ## The thinking flag -/

theorem handleCellClick_thinking (g : ReverseOthello) (row col : Int)
    (hthink : g.isAIThinking = true) : handleCellClick g row col = .ok g := by
  simp [handleCellClick, hthink]

theorem passMove_counts (g : ReverseOthello) (hwf : WellFormed g.board)
    (hend : g.gameEnded = false) :
    ∃ g1, passMove g = .ok g1 ∧ g1.board = g.board ∧ g1.isAIMode = g.isAIMode ∧
      g1.isAIThinking = g.isAIThinking ∧ g.consecutivePasses < g1.consecutivePasses := by
  have hpass : passMove g
      = checkGameEnd (switchPlayer { g with consecutivePasses := g.consecutivePasses + 1 }) := by
    simp [passMove, hend]
  rw [hpass]
  rcases checkGameEnd_cases
      (switchPlayer { g with consecutivePasses := g.consecutivePasses + 1 }) hwf with
    ⟨-, h⟩ | ⟨-, -, h⟩ | ⟨-, -, -, h⟩ | ⟨-, -, -, h⟩
  · exact ⟨_, h, rfl, rfl, rfl, Nat.lt_succ_self _⟩
  · refine ⟨_, h, rfl, rfl, rfl, ?_⟩
    show g.consecutivePasses < g.consecutivePasses + 1 + 1
    omega
  · refine ⟨_, h, rfl, rfl, rfl, ?_⟩
    show g.consecutivePasses < g.consecutivePasses + 1 + 1
    omega
  · refine ⟨_, h, rfl, rfl, rfl, ?_⟩
    show g.consecutivePasses < g.consecutivePasses + 1 + 1
    omega

/-! ## The player to move can move -/

theorem reachable_afterOpeningAI : Reachable afterOpeningAI := by
  have h : handleCellClick (newGame true) 2 2 = .ok afterOpeningAI := by decide
  exact Reachable.click 2 2 (Reachable.start true) h

theorem current_player_can_move_aux (g : ReverseOthello) (h : Reachable g)
    (hend : g.gameEnded = false) :
    HasLegalMove g.board g.currentPlayer ∧
      ∃ moves, getValidMoves g g.currentPlayer = .ok moves ∧ moves ≠ [] := by
  obtain ⟨hwf, hinv⟩ := reachable_invariant g h
  have hhas : HasLegalMove g.board g.currentPlayer := by
    rcases hinv with he | hh
    · rw [hend] at he
      cases he
    · exact hh
  obtain ⟨moves, hmoves, hnil⟩ := getValidMoves_nil_iff g hwf g.currentPlayer
  refine ⟨hhas, moves, hmoves, ?_⟩
  intro hempty
  apply hnil.1 _ hhas
  rw [hempty]
  rfl

/-! # The claims -/

/-- C1: on an 8x8 board and for an in-bounds cell, `isValidMove(row, col)`
returns, and it returns `true` exactly when the cell is empty, one of its eight
neighbours is on the board and occupied, and in no direction a run of one or
more opponent pieces starting next to the cell is followed on the board by a
piece of the current player. -/
theorem isValidMove_iff_legal (g : ReverseOthello) (row col : Int)
    (hwf : WellFormed g.board) (hin : isInBounds row col = true) :
    ∃ res, isValidMove g row col = .ok res ∧
      (res = true ↔ LegalMove g.board g.currentPlayer row col) :=
  isValidMove_spec g row col hwf hin

/-- Witness of C1: the opening position and the cell (2, 2). -/
theorem isValidMove_iff_legal_witness :
    WellFormed (newGame false).board ∧ isInBounds 2 2 = true ∧
      ∃ res, isValidMove (newGame false) 2 2 = .ok res ∧
        (res = true ↔ LegalMove (newGame false).board (newGame false).currentPlayer 2 2) :=
  ⟨by decide, by decide, isValidMove_iff_legal (newGame false) 2 2 (by decide) (by decide)⟩

/-- C2: on an 8x8 board `getValidMoves(player)` returns the list whose members
are exactly the in-bounds cells that are empty, adjacent to an occupied cell and
flip nothing for `player`, in strictly increasing row-major order and so without
duplicates; for the current player a cell is in the list exactly when
`isValidMove` returns `true` on it. -/
theorem getValidMoves_row_major (g : ReverseOthello) (player : Nat)
    (hwf : WellFormed g.board) :
    ∃ moves, getValidMoves g player = .ok moves ∧
      (∀ row col, (row, col) ∈ moves ↔
        isInBounds row col = true ∧ LegalMove g.board player row col) ∧
      moves.Pairwise rowMajorLt ∧ moves.Nodup ∧
      (player = g.currentPlayer →
        ∀ row col, (row, col) ∈ moves ↔ isValidMove g row col = .ok true) :=
  getValidMoves_spec g player hwf

/-- Witness of C2: the opening position, for White. -/
theorem getValidMoves_row_major_witness :
    WellFormed (newGame false).board ∧
      ∃ moves, getValidMoves (newGame false) WHITE = .ok moves ∧
        (∀ row col, (row, col) ∈ moves ↔
          isInBounds row col = true ∧ LegalMove (newGame false).board WHITE row col) ∧
        moves.Pairwise rowMajorLt ∧ moves.Nodup ∧
        (WHITE = (newGame false).currentPlayer →
          ∀ row col, (row, col) ∈ moves ↔ isValidMove (newGame false) row col = .ok true) :=
  ⟨by decide, getValidMoves_row_major (newGame false) WHITE (by decide)⟩

/-- C3, as stated, fails: in a game against the automated player, after Black's
opening move it is White's turn; the cell (2, 3) is a legal move for White, yet
a click on it is ignored and the cell stays empty. -/
theorem handleCellClick_places_counterexample :
    handleCellClick (newGame true) 2 2 = .ok afterOpeningAI ∧
      WellFormed afterOpeningAI.board ∧ afterOpeningAI.gameEnded = false ∧
      isInBounds 2 3 = true ∧
      LegalMove afterOpeningAI.board afterOpeningAI.currentPlayer 2 3 ∧
      afterOpeningAI.currentPlayer = WHITE ∧
      handleCellClick afterOpeningAI 2 3 = .ok afterOpeningAI ∧
      readCell afterOpeningAI.board 2 3 = .ok EMPTY :=
  ⟨by decide, by decide, by decide, by decide,
    legalMove_of_isValidMove afterOpeningAI 2 3 (by decide) (by decide) (by decide),
    by decide, by decide, by decide⟩

/-- C3, amended: in a game that has not ended, a click on an in-bounds cell that
is a legal move for the current player returns and changes no cell other than
the clicked one; the clicked cell then holds the colour of the player who moved
when the click is not held back by the guards for the automated player (no
automated decision pending, and not White's turn in a game against the
automated player), and otherwise the whole state is unchanged. -/
theorem handleCellClick_frame (g : ReverseOthello) (row col : Int)
    (hwf : WellFormed g.board) (hend : g.gameEnded = false)
    (hin : isInBounds row col = true)
    (hlegal : LegalMove g.board g.currentPlayer row col) :
    ∃ g1, handleCellClick g row col = .ok g1 ∧ WellFormed g1.board ∧
      (∀ r1 c1, (r1, c1) ≠ (row, col) → readCell g1.board r1 c1 = readCell g.board r1 c1) ∧
      ((g.isAIThinking = false ∧ ¬ (g.isAIMode = true ∧ g.currentPlayer = WHITE)) →
        readCell g1.board row col = .ok g.currentPlayer) ∧
      (¬ (g.isAIThinking = false ∧ ¬ (g.isAIMode = true ∧ g.currentPlayer = WHITE)) →
        g1 = g) :=
  handleCellClick_frame_aux g row col hwf hend hin hlegal

/-- Witness of C3 (amended): Black's opening move at (2, 2) in a two-player
game. -/
theorem handleCellClick_frame_witness :
    WellFormed (newGame false).board ∧ (newGame false).gameEnded = false ∧
      isInBounds 2 2 = true ∧
      LegalMove (newGame false).board (newGame false).currentPlayer 2 2 ∧
      ∃ g1, handleCellClick (newGame false) 2 2 = .ok g1 ∧ WellFormed g1.board ∧
        (∀ r1 c1, (r1, c1) ≠ (2, 2) →
          readCell g1.board r1 c1 = readCell (newGame false).board r1 c1) ∧
        (((newGame false).isAIThinking = false ∧
            ¬ ((newGame false).isAIMode = true ∧ (newGame false).currentPlayer = WHITE)) →
          readCell g1.board 2 2 = .ok (newGame false).currentPlayer) ∧
        (¬ ((newGame false).isAIThinking = false ∧
            ¬ ((newGame false).isAIMode = true ∧ (newGame false).currentPlayer = WHITE)) →
          g1 = newGame false) :=
  ⟨by decide, by decide, by decide,
    legalMove_of_isValidMove (newGame false) 2 2 (by decide) (by decide) (by decide),
    handleCellClick_frame (newGame false) 2 2 (by decide) (by decide) (by decide)
      (legalMove_of_isValidMove (newGame false) 2 2 (by decide) (by decide) (by decide))⟩

/-- C4: on a game that has not ended, `checkGameEnd` returns with the board
untouched and: if the current player has a legal move, the state is unchanged;
otherwise `consecutivePasses` grows by one, and then either it has reached 2 and
the game is ended, or the turn goes to the other player and the game is ended
exactly when that player has no legal move either. In particular, when the state
is the one right after Black placed a piece (`makeMove`, then `switchPlayer`),
White has no legal move and Black has one, the result has Black to move,
`consecutivePasses = 1` and the game not ended. -/
theorem checkGameEnd_turn (g : ReverseOthello) (hwf : WellFormed g.board)
    (hend : g.gameEnded = false) :
    ∃ g1, checkGameEnd g = .ok g1 ∧ g1.board = g.board ∧
      (HasLegalMove g.board g.currentPlayer → g1 = g) ∧
      (¬ HasLegalMove g.board g.currentPlayer →
        g1.consecutivePasses = g.consecutivePasses + 1 ∧
        (g.consecutivePasses + 1 ≥ 2 → g1.gameEnded = true) ∧
        (g.consecutivePasses + 1 < 2 →
          g1.currentPlayer = opponentOf g.currentPlayer ∧
          (g1.gameEnded = true ↔ ¬ HasLegalMove g.board (opponentOf g.currentPlayer)))) ∧
      (∀ g0 row col g2, g0.currentPlayer = BLACK → makeMove g0 row col = .ok g2 →
        g = switchPlayer g2 → ¬ HasLegalMove g.board WHITE → HasLegalMove g.board BLACK →
        g1.currentPlayer = BLACK ∧ g1.consecutivePasses = 1 ∧ g1.gameEnded = false) :=
  checkGameEnd_turn_aux g hwf hend

/-- Witness of C4: on the nearly full board `lateGame` Black places at (7, 7);
White then has no legal move, Black still has (0, 0), and the check hands the
turn back to Black with one pass counted. -/
theorem checkGameEnd_turn_witness :
    (WellFormed (switchPlayer lateGamePlaced).board ∧
      (switchPlayer lateGamePlaced).gameEnded = false ∧
      lateGame.currentPlayer = BLACK ∧ makeMove lateGame 7 7 = .ok lateGamePlaced ∧
      ¬ HasLegalMove (switchPlayer lateGamePlaced).board WHITE ∧
      HasLegalMove (switchPlayer lateGamePlaced).board BLACK ∧
      checkGameEnd (switchPlayer lateGamePlaced)
        = .ok { lateGamePlaced with consecutivePasses := 1 }) ∧
    ∃ g1, checkGameEnd (switchPlayer lateGamePlaced) = .ok g1 ∧
      g1.board = (switchPlayer lateGamePlaced).board ∧
      (HasLegalMove (switchPlayer lateGamePlaced).board
          (switchPlayer lateGamePlaced).currentPlayer → g1 = switchPlayer lateGamePlaced) ∧
      (¬ HasLegalMove (switchPlayer lateGamePlaced).board
          (switchPlayer lateGamePlaced).currentPlayer →
        g1.consecutivePasses = (switchPlayer lateGamePlaced).consecutivePasses + 1 ∧
        ((switchPlayer lateGamePlaced).consecutivePasses + 1 ≥ 2 → g1.gameEnded = true) ∧
        ((switchPlayer lateGamePlaced).consecutivePasses + 1 < 2 →
          g1.currentPlayer = opponentOf (switchPlayer lateGamePlaced).currentPlayer ∧
          (g1.gameEnded = true ↔
            ¬ HasLegalMove (switchPlayer lateGamePlaced).board
              (opponentOf (switchPlayer lateGamePlaced).currentPlayer)))) ∧
      (∀ g0 row col g2, g0.currentPlayer = BLACK → makeMove g0 row col = .ok g2 →
        switchPlayer lateGamePlaced = switchPlayer g2 →
        ¬ HasLegalMove (switchPlayer lateGamePlaced).board WHITE →
        HasLegalMove (switchPlayer lateGamePlaced).board BLACK →
        g1.currentPlayer = BLACK ∧ g1.consecutivePasses = 1 ∧ g1.gameEnded = false) :=
  ⟨⟨by decide, by decide, by decide, by decide,
      fun h => (hasLegalMove_iff_length (switchPlayer lateGamePlaced) (by decide) WHITE []
        (by decide)).1 h rfl,
      (hasLegalMove_iff_length (switchPlayer lateGamePlaced) (by decide) BLACK [(0, 0)]
        (by decide)).2 (by decide),
      by decide⟩,
    checkGameEnd_turn (switchPlayer lateGamePlaced) (by decide) (by decide)⟩

/-- C5 at the failing input: from the opening position of a two-player game,
Black passes and then White passes (`passMove` does not ask whether the passing
player has a legal move, and `checkGameEnd` compares the pass count with 2 only
when the player to move has no legal move); the state reached has
`consecutivePasses = 2` and the game is not ended, although two passes in a row
were made. -/
theorem two_passes_not_ended :
    passMove (newGame false)
        = .ok { newGame false with currentPlayer := WHITE, consecutivePasses := 1 } ∧
      passMove { newGame false with currentPlayer := WHITE, consecutivePasses := 1 }
        = .ok twoPasses ∧
      Reachable twoPasses ∧ twoPasses.consecutivePasses ≥ 2 ∧ twoPasses.gameEnded = false :=
  ⟨by decide, by decide, reachable_twoPasses, by decide, by decide⟩

/-- C6: on an 8x8 board and for an in-bounds cell, `handleCellClick(row, col)`
returns the state it was given (so board, current player, pass count and ended
flag are unchanged) when the cell is not a legal move for the current player or
when the game has already ended; and `passMove()` returns the state it was given
when the game has already ended. -/
theorem rejected_operation_noop (g : ReverseOthello) (row col : Int)
    (hwf : WellFormed g.board) (hin : isInBounds row col = true) :
    ((¬ LegalMove g.board g.currentPlayer row col ∨ g.gameEnded = true) →
      handleCellClick g row col = .ok g) ∧
    (g.gameEnded = true → passMove g = .ok g) :=
  ⟨handleCellClick_rejected g row col hwf hin, passMove_ended g⟩

/-- Witness of C6: in the opening position the cell (2, 3) would flip a piece
for Black, so the click on it changes nothing; and in the finished game both a
click and a pass change nothing. -/
theorem rejected_operation_noop_witness :
    (WellFormed (newGame false).board ∧ isInBounds 2 3 = true ∧
      ¬ LegalMove (newGame false).board (newGame false).currentPlayer 2 3 ∧
      handleCellClick (newGame false) 2 3 = .ok (newGame false)) ∧
    (WellFormed finishedGame.board ∧ isInBounds 0 0 = true ∧
      finishedGame.gameEnded = true ∧
      handleCellClick finishedGame 0 0 = .ok finishedGame ∧
      passMove finishedGame = .ok finishedGame) :=
  ⟨⟨by decide, by decide,
      not_legalMove_of_isValidMove (newGame false) 2 3 (by decide) (by decide) (by decide),
      (rejected_operation_noop (newGame false) 2 3 (by decide) (by decide)).1
        (Or.inl (not_legalMove_of_isValidMove (newGame false) 2 3
          (by decide) (by decide) (by decide)))⟩,
    ⟨by decide, by decide, by decide,
      (rejected_operation_noop finishedGame 0 0 (by decide) (by decide)).1 (Or.inr (by decide)),
      (rejected_operation_noop finishedGame 0 0 (by decide) (by decide)).2 (by decide)⟩⟩

/-- C7: on an 8x8 board and for a random index within the promised range,
`getHeuristicMove()` returns; it returns `null` exactly when White has no legal
move; otherwise it returns a member of `getValidMoves(WHITE)`, which is the
first legal corner in row-major scan order when some legal move is a corner,
else the first legal edge cell in row-major scan order when some legal move is
on an edge. -/
theorem getHeuristicMove_choice (g : ReverseOthello) (randomIndex : RandomSource)
    (hwf : WellFormed g.board) (hdraw : InRange randomIndex) :
    ∃ moves res, getValidMoves g WHITE = .ok moves ∧
      getHeuristicMove g randomIndex = .ok res ∧
      (res = .null ↔ ¬ HasLegalMove g.board WHITE) ∧
      (HasLegalMove g.board WHITE →
        ∃ row col, res = .move row col ∧ (row, col) ∈ moves ∧
          ((∃ m ∈ moves, IsCornerCell m) → FirstInScanOrder IsCornerCell moves (row, col)) ∧
          ((¬ ∃ m ∈ moves, IsCornerCell m) → (∃ m ∈ moves, IsEdgeCell m) →
            FirstInScanOrder IsEdgeCell moves (row, col))) :=
  getHeuristicMove_spec g randomIndex hwf hdraw

/-- Witness of C7: on the nearly full board `lateGame` White's only legal move is
the corner (7, 7), which the heuristic returns; in the opening position no legal
move of White is on an edge and the draw 0.5 picks the fifth of the eight legal
moves. -/
theorem getHeuristicMove_choice_witness :
    (WellFormed lateGame.board ∧ InRange halfDraw ∧
      getHeuristicMove lateGame halfDraw = .ok (.move 7 7) ∧
      getHeuristicMove (newGame false) halfDraw = .ok (.move 4 5)) ∧
    ∃ moves res, getValidMoves lateGame WHITE = .ok moves ∧
      getHeuristicMove lateGame halfDraw = .ok res ∧
      (res = .null ↔ ¬ HasLegalMove lateGame.board WHITE) ∧
      (HasLegalMove lateGame.board WHITE →
        ∃ row col, res = .move row col ∧ (row, col) ∈ moves ∧
          ((∃ m ∈ moves, IsCornerCell m) → FirstInScanOrder IsCornerCell moves (row, col)) ∧
          ((¬ ∃ m ∈ moves, IsCornerCell m) → (∃ m ∈ moves, IsEdgeCell m) →
            FirstInScanOrder IsEdgeCell moves (row, col))) :=
  ⟨⟨by decide, halfDraw_inRange, by decide, by decide⟩,
    getHeuristicMove_choice lateGame halfDraw (by decide) halfDraw_inRange⟩

/-- C8: for a non-empty legal-move list, any response text and a random index
within the promised range, `parseAIResponse` returns a member of the list; when
the first letter-digit token of the text (letter A-H of either case, digit 1-8)
denotes a cell of the list (row = digit - 1, column = letter index), it returns
that cell; the text "A1" with (0, 0) in the list gives (0, 0); and the text that
`generateValidMovesText` produces for a single in-bounds move has that move as
its first token, so that it parses back to the move against every list that
holds it, whatever the random index. -/
theorem parseAIResponse_accepts (s : String) (validMoves : List (Int × Int))
    (randomIndex : RandomSource) (hne : validMoves ≠ []) (hdraw : InRange randomIndex) :
    (∃ row col, parseAIResponse (.text s) validMoves randomIndex = .ok (.move row col) ∧
      (row, col) ∈ validMoves) ∧
    (∀ a b, FirstToken s.data a b → (digitRow b, letterIndex a) ∈ validMoves →
      parseAIResponse (.text s) validMoves randomIndex
        = .ok (.move (digitRow b) (letterIndex a))) ∧
    ((0, 0) ∈ validMoves →
      parseAIResponse (.text "A1") validMoves randomIndex = .ok (.move 0 0)) ∧
    (∀ row col, isInBounds row col = true →
      (∃ a b, FirstToken (generateValidMovesText [(row, col)]).data a b ∧
        digitRow b = row ∧ letterIndex a = col) ∧
      ((row, col) ∈ validMoves →
        parseAIResponse (.text (generateValidMovesText [(row, col)])) validMoves randomIndex
          = .ok (.move row col))) :=
  parseAIResponse_accepts_aux s validMoves randomIndex hne hdraw

/-- Witness of C8: the answer "go e4" against the legal moves (0, 0) and (3, 4)
is read as (3, 4); so is the text generated for the single move (3, 4), "E4"
after the label, although the random index of the draw 0.5 for two moves is 1
and an answer without a token such as "Z9" gives (3, 4) only by that draw,
while the text generated for (0, 0) gives (0, 0). -/
theorem parseAIResponse_accepts_witness :
    ([((0 : Int), (0 : Int)), (3, 4)] ≠ [] ∧ InRange halfDraw ∧
      FirstToken "go e4".data 'e' '4' ∧ digitRow '4' = 3 ∧ letterIndex 'e' = 4 ∧
      parseAIResponse (.text "go e4") [(0, 0), (3, 4)] halfDraw = .ok (.move 3 4) ∧
      generateValidMovesText [(3, 4)] = "有効な手: E4" ∧
      parseAIResponse (.text (generateValidMovesText [(3, 4)])) [(0, 0), (3, 4)] halfDraw
        = .ok (.move 3 4) ∧
      parseAIResponse (.text (generateValidMovesText [(0, 0)])) [(0, 0), (3, 4)] halfDraw
        = .ok (.move 0 0)) ∧
    ((∃ row col, parseAIResponse (.text "go e4") [(0, 0), (3, 4)] halfDraw
        = .ok (.move row col) ∧ (row, col) ∈ [((0 : Int), (0 : Int)), (3, 4)]) ∧
      (∀ a b, FirstToken "go e4".data a b →
        (digitRow b, letterIndex a) ∈ [((0 : Int), (0 : Int)), (3, 4)] →
        parseAIResponse (.text "go e4") [(0, 0), (3, 4)] halfDraw
          = .ok (.move (digitRow b) (letterIndex a))) ∧
      ((0, 0) ∈ [((0 : Int), (0 : Int)), (3, 4)] →
        parseAIResponse (.text "A1") [(0, 0), (3, 4)] halfDraw = .ok (.move 0 0)) ∧
      (∀ row col, isInBounds row col = true →
        (∃ a b, FirstToken (generateValidMovesText [(row, col)]).data a b ∧
          digitRow b = row ∧ letterIndex a = col) ∧
        ((row, col) ∈ [((0 : Int), (0 : Int)), (3, 4)] →
          parseAIResponse (.text (generateValidMovesText [(row, col)])) [(0, 0), (3, 4)]
              halfDraw
            = .ok (.move row col)))) :=
  ⟨⟨by decide, halfDraw_inRange, firstToken_go_e4, by decide, by decide,
      (parseAIResponse_accepts "go e4" [(0, 0), (3, 4)] halfDraw (by decide)
        halfDraw_inRange).2.1 'e' '4' firstToken_go_e4 (by decide),
      by decide,
      ((parseAIResponse_accepts "go e4" [(0, 0), (3, 4)] halfDraw (by decide)
        halfDraw_inRange).2.2.2 3 4 (by decide)).2 (by decide),
      ((parseAIResponse_accepts "go e4" [(0, 0), (3, 4)] halfDraw (by decide)
        halfDraw_inRange).2.2.2 0 0 (by decide)).2 (by decide)⟩,
    parseAIResponse_accepts "go e4" [(0, 0), (3, 4)] halfDraw (by decide) halfDraw_inRange⟩

/-- C9, as stated, fails: in the position `cornerOpen` White's legal moves
include the corner (0, 0), which is what the heuristic policy picks; but for the
unparseable answer "Z9" and the draw 0.5, whose random index for the 27 legal
moves is 13, `parseAIResponse` selects (3, 1), which is neither a corner nor an
edge cell. -/
theorem parseAIResponse_fallback_counterexample :
    getValidMoves cornerOpen WHITE = .ok cornerOpenMoves ∧ cornerOpenMoves ≠ [] ∧
      (∀ i x y, ¬ TokenAt "Z9".data i x y) ∧
      (0, 0) ∈ cornerOpenMoves ∧ IsCornerCell (0, 0) ∧
      getHeuristicMove cornerOpen halfDraw = .ok (.move 0 0) ∧
      halfDraw cornerOpenMoves.length = 13 ∧
      parseAIResponse (.text "Z9") cornerOpenMoves halfDraw = .ok (.move 3 1) ∧
      ¬ IsCornerCell (3, 1) ∧ ¬ IsEdgeCell (3, 1) :=
  ⟨by decide, by decide, no_token_Z9, by decide, Or.inl rfl, by decide, by decide,
    parse_Z9_cornerOpen, by simp [IsCornerCell], by simp [IsEdgeCell]⟩

/-- C9, amended: when the oracle's answer holds no letter-digit token, or its
first token names a cell that is not in the legal-move list, then for a
non-empty list and a random index within the promised range `parseAIResponse`
returns `validMoves[Math.floor(Math.random() * validMoves.length)]`: the member
of the list at the random index, chosen by the draw and not by the corner and
edge preferences. -/
theorem parseAIResponse_fallback_random (s : String) (validMoves : List (Int × Int))
    (randomIndex : RandomSource) (hne : validMoves ≠ []) (hdraw : InRange randomIndex)
    (hbad : (∀ i x y, ¬ TokenAt s.data i x y) ∨
      ∃ a b, FirstToken s.data a b ∧ (digitRow b, letterIndex a) ∉ validMoves) :
    parseAIResponse (.text s) validMoves randomIndex
        = .ok (moveAt validMoves (randomIndex validMoves.length)) ∧
      ∃ row col, parseAIResponse (.text s) validMoves randomIndex = .ok (.move row col) ∧
        validMoves[(randomIndex validMoves.length).toNat]? = some (row, col) ∧
        (row, col) ∈ validMoves :=
  parseAIResponse_fallback_aux s validMoves randomIndex hne hdraw hbad

/-- Witness of C9 (amended): the answer "Z9" against White's legal moves in the
position `cornerOpen`, with the draw 0.5. -/
theorem parseAIResponse_fallback_random_witness :
    (cornerOpenMoves ≠ [] ∧ InRange halfDraw ∧
      ((∀ i x y, ¬ TokenAt "Z9".data i x y) ∨
        ∃ a b, FirstToken "Z9".data a b ∧ (digitRow b, letterIndex a) ∉ cornerOpenMoves)) ∧
    (parseAIResponse (.text "Z9") cornerOpenMoves halfDraw
        = .ok (moveAt cornerOpenMoves (halfDraw cornerOpenMoves.length)) ∧
      ∃ row col, parseAIResponse (.text "Z9") cornerOpenMoves halfDraw
          = .ok (.move row col) ∧
        cornerOpenMoves[(halfDraw cornerOpenMoves.length).toNat]? = some (row, col) ∧
        (row, col) ∈ cornerOpenMoves) :=
  ⟨⟨by decide, halfDraw_inRange, Or.inl no_token_Z9⟩,
    parseAIResponse_fallback_random "Z9" cornerOpenMoves halfDraw (by decide)
      halfDraw_inRange (Or.inl no_token_Z9)⟩

/-- C10: `initializeBoard()`, run on any prior state (and so `resetGame()` and
the constructor), yields an 8x8 board on which (3, 3) and (4, 4) hold White,
(3, 4) and (4, 3) hold Black and every other cell is empty, so that
`countPieces()` gives 2 black and 2 white pieces; the current player is Black,
`consecutivePasses` is 0 and the game is not ended. -/
theorem initializeBoard_opening (g : ReverseOthello) :
    WellFormed (initializeBoard g).board ∧
      (∀ row col, isInBounds row col = true →
        readCell (initializeBoard g).board row col
          = .ok (if (row, col) = (3, 3) ∨ (row, col) = (4, 4) then WHITE
                 else if (row, col) = (3, 4) ∨ (row, col) = (4, 3) then BLACK
                 else EMPTY)) ∧
      countPieces (initializeBoard g) = .ok (2, 2) ∧
      (initializeBoard g).currentPlayer = BLACK ∧
      (initializeBoard g).consecutivePasses = 0 ∧
      (initializeBoard g).gameEnded = false ∧
      resetGame g = initializeBoard g ∧
      (∀ isAIMode, (newGame isAIMode).board = (initializeBoard g).board ∧
        (newGame isAIMode).currentPlayer = BLACK ∧
        (newGame isAIMode).consecutivePasses = 0 ∧
        (newGame isAIMode).gameEnded = false) := by
  obtain ⟨hb, hc, hp, he, -, -⟩ := initializeBoard_fields g
  refine ⟨?_, ?_, ?_, hc, hp, he, rfl, ?_⟩
  · rw [hb]; decide
  · intro row col hin
    rw [hb]
    exact opening_cells row col hin
  · rw [countPieces_congr (initializeBoard g) (newGame false) hb]
    decide
  · intro isAIMode
    exact ⟨by rw [hb]; cases isAIMode <;> rfl, by cases isAIMode <;> rfl,
      by cases isAIMode <;> rfl, by cases isAIMode <;> rfl⟩

/-- Witness of C10: a reset of the finished game `finishedGame` gives back the
opening position. -/
theorem initializeBoard_opening_witness :
    resetGame finishedGame = newGame false ∧
      readCell (initializeBoard finishedGame).board 3 3 = .ok WHITE ∧
      readCell (initializeBoard finishedGame).board 3 4 = .ok BLACK ∧
      readCell (initializeBoard finishedGame).board 0 0 = .ok EMPTY ∧
      countPieces (initializeBoard finishedGame) = .ok (2, 2) :=
  ⟨by decide,
    (initializeBoard_opening finishedGame).2.1 3 3 (by decide),
    (initializeBoard_opening finishedGame).2.1 3 4 (by decide),
    (initializeBoard_opening finishedGame).2.1 0 0 (by decide),
    (initializeBoard_opening finishedGame).2.2.1⟩

/-- C11: on an 8x8 board, for any player and any in-bounds cell,
`isAdjacentToExistingPiece`, `canFlipInDirection` in each of the eight
directions, `wouldFlipPieces`, `isValidMove` and `getValidMoves` all return
(a read outside the board is an error that every operation passes on, so none
happens); the walking loop of `canFlipInDirection`, run with room for
`BOARD_SIZE` checks, stops after `m ≤ 7` steps, every one of them on a cell of
the board; and for every cell whatsoever, on the board or not, and every
direction vector, the stepped reads of the three direction-walking operations
never leave the board. -/
theorem rule_engine_total (g : ReverseOthello) (player : Nat) (row col : Int)
    (hwf : WellFormed g.board) (hin : isInBounds row col = true) :
    (∃ res, isAdjacentToExistingPiece g row col = .ok res) ∧
    (∀ d ∈ DIRECTIONS, ∃ res, canFlipInDirection g row col d.1 d.2 player = .ok res) ∧
    (∃ res, wouldFlipPieces g row col player = .ok res) ∧
    (∃ res, isValidMove g row col = .ok res) ∧
    (∃ moves, getValidMoves g player = .ok moves) ∧
    (∀ d ∈ DIRECTIONS, ∀ has : Bool, ∃ m : Nat, m ≤ 7 ∧
      flipWalk g.board (opponentOf player) d.1 d.2 BOARD_SIZE (row + d.1) (col + d.2) has
        = .ok (row + d.1 + (m : Int) * d.1, col + d.2 + (m : Int) * d.2,
            has || decide (0 < m)) ∧
      ∀ i : Nat, i < m →
        isInBounds (row + d.1 + (i : Int) * d.1) (col + d.2 + (i : Int) * d.2) = true) ∧
    (∀ (r c dr dc : Int) (p : Nat),
      isAdjacentToExistingPiece g r c ≠ .error .outOfRange ∧
      canFlipInDirection g r c dr dc p ≠ .error .outOfRange ∧
      wouldFlipPieces g r c p ≠ .error .outOfRange) :=
  rule_engine_total_aux g player row col hwf hin

/-- Witness of C11: the opening position, Black, and the cell (3, 2), from which
the walk to the right crosses one White piece and stops on a Black one. -/
theorem rule_engine_total_witness :
    (WellFormed (newGame false).board ∧ isInBounds 3 2 = true ∧
      canFlipInDirection (newGame false) 3 2 0 1 BLACK = .ok true ∧
      flipWalk (newGame false).board WHITE 0 1 BOARD_SIZE 3 3 false = .ok (3, 4, true)) ∧
    ((∃ res, isAdjacentToExistingPiece (newGame false) 3 2 = .ok res) ∧
      (∀ d ∈ DIRECTIONS, ∃ res,
        canFlipInDirection (newGame false) 3 2 d.1 d.2 BLACK = .ok res) ∧
      (∃ res, wouldFlipPieces (newGame false) 3 2 BLACK = .ok res) ∧
      (∃ res, isValidMove (newGame false) 3 2 = .ok res) ∧
      (∃ moves, getValidMoves (newGame false) BLACK = .ok moves) ∧
      (∀ d ∈ DIRECTIONS, ∀ has : Bool, ∃ m : Nat, m ≤ 7 ∧
        flipWalk (newGame false).board (opponentOf BLACK) d.1 d.2 BOARD_SIZE (3 + d.1)
            (2 + d.2) has
          = .ok (3 + d.1 + (m : Int) * d.1, 2 + d.2 + (m : Int) * d.2,
              has || decide (0 < m)) ∧
        ∀ i : Nat, i < m →
          isInBounds (3 + d.1 + (i : Int) * d.1) (2 + d.2 + (i : Int) * d.2) = true) ∧
      (∀ (r c dr dc : Int) (p : Nat),
        isAdjacentToExistingPiece (newGame false) r c ≠ .error .outOfRange ∧
        canFlipInDirection (newGame false) r c dr dc p ≠ .error .outOfRange ∧
        wouldFlipPieces (newGame false) r c p ≠ .error .outOfRange)) :=
  ⟨⟨by decide, by decide, by decide, by decide⟩,
    rule_engine_total (newGame false) BLACK 3 2 (by decide) (by decide)⟩

/-- C12 at the failing input: in the position `thinkingAI` the automated player
is deciding (`isAIThinking = true`). The cell click is held back, as the claim
says; but `passMove()` still counts a pass and hands the turn to Black, and
`resetGame()` still puts the opening position back with Black to move, while
the flag stays set for the decision that is still pending. -/
theorem pass_and_reset_while_thinking :
    thinkingAI.isAIThinking = true ∧ WellFormed thinkingAI.board ∧
      handleCellClick thinkingAI 2 3 = .ok thinkingAI ∧
      passMove thinkingAI
        = .ok { thinkingAI with currentPlayer := BLACK, consecutivePasses := 1 } ∧
      resetGame thinkingAI = { newGame true with isAIThinking := true } ∧
      (resetGame thinkingAI).board ≠ thinkingAI.board ∧
      (resetGame thinkingAI).currentPlayer ≠ thinkingAI.currentPlayer :=
  ⟨by decide, by decide, by decide, by decide, by decide, by decide, by decide⟩

/-- C13: in every state reachable from a fresh game by cell clicks and passes
in which the game has not ended, the current player has at least one legal
move, and `getValidMoves(currentPlayer)` returns a non-empty list. -/
theorem current_player_can_move (g : ReverseOthello) (h : Reachable g)
    (hend : g.gameEnded = false) :
    HasLegalMove g.board g.currentPlayer ∧
      ∃ moves, getValidMoves g g.currentPlayer = .ok moves ∧ moves ≠ [] :=
  current_player_can_move_aux g h hend

/-- Witness of C13: the position after Black's opening move at (2, 2) in a game
against the automated player. -/
theorem current_player_can_move_witness :
    (Reachable afterOpeningAI ∧ afterOpeningAI.gameEnded = false) ∧
      HasLegalMove afterOpeningAI.board afterOpeningAI.currentPlayer ∧
      ∃ moves, getValidMoves afterOpeningAI afterOpeningAI.currentPlayer = .ok moves ∧
        moves ≠ [] :=
  ⟨⟨reachable_afterOpeningAI, by decide⟩,
    current_player_can_move afterOpeningAI reachable_afterOpeningAI (by decide)⟩

end Inversi
